import Mathlib

/-!
# s3-copy-proxy: bootstrap (`main.go`) and the request core

A shallow embedding of `main.go` (region resolution, argument conversion and
the fail-fast startup sequence that builds the `ProxyConfig` and starts the
HTTP server), followed by a model of the request router and fetch coordinator.
-/

namespace S3CopyProxy

/-! ## Region resolution (`strToRegion`, main.go 15-40) -/

/-- The package-level region values of `goamz/aws` that `strToRegion` takes the
address of. Each constructor stands for the variable of the same name. -/
inductive Region where
  | USEast
  | USWest
  | USWest2
  | EUWest
  | EUCentral
  | APSoutheast
  | APSoutheast2
  | APNortheast
  | SAEast
  | CNNorth
  deriving DecidableEq, Repr

/-- A Go `error` value built by `fmt.Errorf`: only its rendered message. -/
structure FmtError where
  msg : String
  deriving DecidableEq, Repr

/-- `strToRegion(region string) (*aws.Region, error)`. The Go pair of results is
kept as a pair: a `nil` pointer is `none`, a `nil` error is `none`. -/
def strToRegion (region : String) : Option Region × Option FmtError :=
  match region with
  | "us-east-1" => (some Region.USEast, none)
  | "us-west-1" => (some Region.USWest, none)
  | "us-west-2" => (some Region.USWest2, none)
  | "eu-west-1" => (some Region.EUWest, none)
  | "eu-central-1" => (some Region.EUCentral, none)
  | "ap-southeast-1" => (some Region.APSoutheast, none)
  | "ap-southeast-2" => (some Region.APSoutheast2, none)
  | "ap-northeast-1" => (some Region.APNortheast, none)
  | "sa-east-1" => (some Region.SAEast, none)
  | "cn-north-1" => (some Region.CNNorth, none)
  | _ => (none, some ⟨"Unknown region " ++ region⟩)

/-- The ten region identifiers named by the cases of the `switch`. -/
def supportedRegions : List String :=
  ["us-east-1", "us-west-1", "us-west-2", "eu-west-1", "eu-central-1",
   "ap-southeast-1", "ap-southeast-2", "ap-northeast-1", "sa-east-1", "cn-north-1"]

/-! ## Command line (`usage`, main.go 49-76)

`docopt.Parse(usage, nil, true, version, false, true)` matches the process
arguments against the usage pattern
`proxy --source=<host> --region=<region> --bucket=<name>
[--prefix=<path> --port=<port> --metadata-url=<url>]`. -/

/-- The options present on a command line that matches the first usage
pattern: the three required ones, and the three in square brackets. -/
structure CommandLine where
  source : String
  region : String
  bucket : String
  pathPrefix : Option String
  port : Option String
  metadataURL : Option String
  deriving DecidableEq, Repr

/-- The `arguments` map `docopt.Parse` returns, read at the keys `main` reads:
`--source`, `--region`, `--bucket`, `--port`, `--metadata-url`, `--prefix`. A
`nil` entry is `none`; the four entries `main` asserts to be strings are
strings. -/
structure Arguments where
  source : String
  region : String
  bucket : String
  port : String
  metadataURL : Option String
  pathPrefix : Option String
  deriving DecidableEq, Repr

/-- The entries of the map for a matched command line. The Options section of
`usage` gives `--port` the default `8080` (`[default: 8080]`, line 68); the
annotations of `--prefix` and `--metdata-url` are spelt `[deafult:]`, which is
no default, so an absent `--prefix` or `--metadata-url` is `nil`. -/
def docoptArguments (cl : CommandLine) : Arguments :=
  { source := cl.source
    region := cl.region
    bucket := cl.bucket
    port := cl.port.getD "8080"
    metadataURL := cl.metadataURL
    pathPrefix := cl.pathPrefix }

/-! ## `strconv.Atoi` and `fmt.Sprintf(":%d", _)` -/

/-- The value of a decimal digit byte, `none` for any other character. -/
def digitValue (c : Char) : Option Nat :=
  if '0' ≤ c ∧ c ≤ '9' then some (c.toNat - '0'.toNat) else none

/-- The unsigned value of a run of decimal digits, most significant first,
continuing from `acc`; `none` when a character is not a digit. -/
def parseDigits : List Char → Nat → Option Nat
  | [], acc => some acc
  | c :: cs, acc =>
    match digitValue c with
    | none => none
    | some d => parseDigits cs (acc * 10 + d)

/-- The two sizes Go's `int` has, by platform. -/
inductive IntSize where
  | bits32
  | bits64
  deriving DecidableEq, Repr

/-- The number of bits. -/
def IntSize.bits : IntSize → Nat
  | .bits32 => 32
  | .bits64 => 64

/-- Go's `strconv.Atoi` for an `int` of `intSize` bits, as far as `main` uses
it: `some n` when the call returns `n` with a `nil` error, `none` when it
returns an error. The text is an optional `+` or `-`, then at least one decimal
digit, and the value must fit the signed range. -/
def Atoi (intSize : IntSize) (s : String) : Option Int :=
  match s.toList with
  | [] => none
  | c :: cs =>
    let neg := c = '-'
    let digits := if c = '-' ∨ c = '+' then cs else c :: cs
    if digits = [] then none
    else
      match parseDigits digits 0 with
      | none => none
      | some un =>
        let cutoff := 2 ^ (intSize.bits - 1)
        if ¬ neg ∧ un ≥ cutoff then none
        else if neg ∧ un > cutoff then none
        else some (if neg then - (un : Int) else (un : Int))

/-- `fmt.Sprintf(":%d", port)`: a colon and the decimal rendering of `port`. -/
def listenAddr (port : Int) : String :=
  ":" ++ toString port

/-! ## Startup (`main`, main.go 78-164) -/

/-- `ProxyConfig` (main.go 42-46). `URL` and `Bucket` are the types `url.URL`
and `s3.Bucket` of the libraries. -/
structure ProxyConfig (URL Bucket : Type) where
  Source : URL
  Bucket : Bucket
  Prefix : String

/-- Everything `main` calls that is not defined in `main.go`: the libraries
(docopt, net/url, goamz, net/http), the process environment, and the
host-details, metrics and routing code of the proxy. Each call is a field; a
call that can fail returns `Except`. -/
structure Lib where
  URL : Type
  Auth : Type
  S3 : Type
  Bucket : Type
  HostType : Type
  HostDetails : Type
  Metrics : Type
  MetricFactory : Type
  Routes : Type
  Err : Type
  /-- The size of Go's `int` on the platform. -/
  intSize : IntSize
  /-- How `docopt.Parse` ends on the process arguments: `none` when it
  terminates the process itself (help, version, or a command line that does not
  match, the `exit` flag being set), an error, or the matched command line. -/
  docoptParse : List String → Option (Except Err CommandLine)
  urlParse : String → Except Err URL
  /-- The call `aws.EnvAuth()`, which reads the credentials from the environment. -/
  envAuth : Except Err Auth
  s3New : Auth → Region → S3
  bucket : S3 → String → Bucket
  getHostType : String → HostType
  details : HostType → Except Err HostDetails
  description : HostType → String
  hostname : HostDetails → String
  region : HostDetails → String
  instanceID : HostDetails → String
  instanceType : HostDetails → String
  newMetrics : Except Err Metrics
  newMetricFactory : HostDetails → ProxyConfig URL Bucket → MetricFactory
  newRoutes : ProxyConfig URL Bucket → Metrics → MetricFactory → Routes
  /-- The call `http.ListenAndServe(addr, routes)`: `none` when it keeps serving and
  never returns, `some err` when it returns. -/
  listenAndServe : String → Routes → Option Err

/-- An `error` value that reaches `log.Fatal` or `log.Fatalf` in `main`. -/
inductive ErrVal (Err : Type) where
  /-- An error returned by a library or collaborator call. -/
  | lib (e : Err)
  /-- The error `strconv.Atoi` returns for the text `input`. -/
  | atoi (input : String)
  /-- An error built by `fmt.Errorf`. -/
  | fmt (e : FmtError)

/-- A value formatted by `log.Printf`. -/
inductive LogArg where
  | int (n : Int)
  | str (s : String)
  deriving DecidableEq, Repr

/-- The observable steps of `main`, in the order of the statements that make
them. A pointer argument (`&config`, `&metricsFactory`) is recorded as the value
it points to. -/
inductive Event (L : Lib) where
  | docoptParse (argv : List String)
  | atoi (s : String)
  | urlParse (s : String)
  | strToRegion (s : String)
  | envAuth
  | s3New (auth : L.Auth) (region : Region)
  | bucket (client : L.S3) (name : String)
  /-- The assignment `config := ProxyConfig{...}` (lines 127-131), the only
  statement of `main` that writes `config` or one of its fields. -/
  | config (c : ProxyConfig L.URL L.Bucket)
  | logPrintf (format : String) (args : List LogArg)
  | getHostType (metadataURL : String)
  | details (h : L.HostType)
  | description (h : L.HostType)
  | newMetrics
  | newMetricFactory (hd : L.HostDetails) (c : ProxyConfig L.URL L.Bucket)
  | newRoutes (c : ProxyConfig L.URL L.Bucket) (m : L.Metrics) (f : L.MetricFactory)
  | listenAndServe (addr : String) (routes : L.Routes)
  /-- The process was ended by `docopt.Parse` itself. -/
  | docoptExit
  | logFatal (err : ErrVal L.Err)
  | logFatalf (format : String) (err : ErrVal L.Err)
  /-- The run-time panic of `*awsRegionObj` on a `nil` pointer. -/
  | nilDereference

/-- The conversion `main` applies to the two optional entries `--metadata-url`
(lines 94-100) and `--prefix` (lines 102-107): the empty string when the entry is
`nil`, the entry's string otherwise. -/
def stringOrEmpty (entry : Option String) : String :=
  match entry with
  | none => ""
  | some s => s

/-- The function `main`: the steps of one run of the process started with
arguments `argv`, first to last. A run ends at `log.Fatal`/`log.Fatalf` (which
exit the process), or in `http.ListenAndServe`. -/
def main (L : Lib) (argv : List String) : List (Event L) :=
  .docoptParse argv ::
  match L.docoptParse argv with
  | none => [.docoptExit]
  | some (.error err) => [.logFatal (.lib err)]
  | some (.ok cl) =>
    let arguments := docoptArguments cl
    let source := arguments.source
    let region := arguments.region
    let bucket := arguments.bucket
    .atoi arguments.port ::
    match Atoi L.intSize arguments.port with
    | none => [.logFatalf "Cannot parse port into int: %v" (.atoi arguments.port)]
    | some port =>
      let metadataURL := stringOrEmpty arguments.metadataURL
      let pathPrefix := stringOrEmpty arguments.pathPrefix
      .urlParse source ::
      match L.urlParse source with
      | .error err => [.logFatalf "Error parsing source into url : %v" (.lib err)]
      | .ok url =>
        .strToRegion region ::
        match strToRegion region with
        | (_, some err) => [.logFatal (.fmt err)]
        | (awsRegionObj, none) =>
          .envAuth ::
          match L.envAuth with
          | .error err => [.logFatal (.lib err)]
          | .ok auth =>
            match awsRegionObj with
            | none => [.nilDereference]
            | some regionObj =>
              let client := L.s3New auth regionObj
              let s3Bucket := L.bucket client bucket
              let config : ProxyConfig L.URL L.Bucket :=
                { Source := url, Bucket := s3Bucket, Prefix := pathPrefix }
              let hostType := L.getHostType metadataURL
              .s3New auth regionObj ::
              .bucket client bucket ::
              .config config ::
              .logPrintf "Proxy server starting on port %d" [.int port] ::
              .getHostType metadataURL ::
              .details hostType ::
              match L.details hostType with
              | .error err => [.logFatal (.lib err)]
              | .ok hostDetails =>
                let hostDesc := L.description hostType
                .description hostType ::
                .logPrintf "Host Type: %s" [.str hostDesc] ::
                .logPrintf "hostname=%s region=%s instance-id=%s instance-type=%s"
                  [.str (L.hostname hostDetails), .str (L.region hostDetails),
                   .str (L.instanceID hostDetails), .str (L.instanceType hostDetails)] ::
                .newMetrics ::
                match L.newMetrics with
                | .error err => [.logFatal (.lib err)]
                | .ok metrics =>
                  let metricsFactory := L.newMetricFactory hostDetails config
                  let routes := L.newRoutes config metrics metricsFactory
                  .newMetricFactory hostDetails config ::
                  .newRoutes config metrics metricsFactory ::
                  .listenAndServe (listenAddr port) routes ::
                  match L.listenAndServe (listenAddr port) routes with
                  | none => []
                  | some startErr => [.logFatal (.lib startErr)]

/-- A concrete set of collaborators for evaluating `main`: every library value
is a string that records how it was made, the command line is read from
`argv` positionally (`source region bucket`, then optionally a port), and every
other call succeeds. -/
def demoLib : Lib :=
  { URL := String, Auth := String, S3 := String × Region, Bucket := (String × Region) × String
    HostType := String, HostDetails := String, Metrics := Unit, MetricFactory := Unit
    Routes := String, Err := String
    intSize := .bits64
    docoptParse := fun argv =>
      match argv with
      | [s, r, b] =>
        some (.ok { source := s, region := r, bucket := b, pathPrefix := none,
                    port := none, metadataURL := none })
      | [s, r, b, p] =>
        some (.ok { source := s, region := r, bucket := b, pathPrefix := some "production",
                    port := some p, metadataURL := none })
      | _ => none
    urlParse := fun s => .ok s
    envAuth := .ok "auth"
    s3New := fun a r => (a, r)
    bucket := fun c n => (c, n)
    getHostType := fun u => u
    details := fun h => .ok h
    description := fun _ => "aws"
    hostname := fun _ => "host"
    region := fun _ => "us-east-1"
    instanceID := fun _ => "i-0"
    instanceType := fun _ => "m1"
    newMetrics := .ok ()
    newMetricFactory := fun _ _ => ()
    newRoutes := fun c _ _ => c.Prefix
    listenAndServe := fun _ _ => none }

/-- A command line for `demoLib`: source, region, bucket and port. -/
def demoArgv : List String :=
  ["https://example.org/src", "us-west-2", "replica", "9000"]

/-- The command line `demoLib` matches `demoArgv` to. -/
def demoCommandLine : CommandLine :=
  { source := "https://example.org/src", region := "us-west-2", bucket := "replica"
    pathPrefix := some "production", port := some "9000", metadataURL := none }

/-- The configuration `main demoLib demoArgv` constructs. -/
def demoConfig : ProxyConfig demoLib.URL demoLib.Bucket :=
  { Source := "https://example.org/src"
    Bucket := (("auth", Region.USWest2), "replica")
    Prefix := "production" }

/-- The steps of `main demoLib demoArgv` before it constructs `demoConfig`. -/
def demoPre : List (Event demoLib) :=
  [.docoptParse demoArgv, .atoi "9000", .urlParse "https://example.org/src",
   .strToRegion "us-west-2", .envAuth, .s3New "auth" Region.USWest2,
   .bucket ("auth", Region.USWest2) "replica"]

/-- The steps of `main demoLib demoArgv` after it constructs `demoConfig`. -/
def demoPost : List (Event demoLib) :=
  [.logPrintf "Proxy server starting on port %d" [.int 9000], .getHostType "",
   .details "", .description "", .logPrintf "Host Type: %s" [.str "aws"],
   .logPrintf "hostname=%s region=%s instance-id=%s instance-type=%s"
     [.str "host", .str "us-east-1", .str "i-0", .str "m1"],
   .newMetrics, .newMetricFactory "" demoConfig, .newRoutes demoConfig () (),
   .listenAndServe ":9000" "production"]

/-- Whether a step writes the variable `config` or one of its fields. -/
def Event.writesConfig {L : Lib} : Event L → Bool
  | .config _ => true
  | _ => false

/-- The stages of startup, named for the calls that perform them. -/
inductive Stage where
  | parseArguments
  | parsePort
  | parseSource
  | resolveRegion
  | loadCredentials
  | hostDetails
  | createMetrics
  | listen
  deriving DecidableEq, Repr

/-- The stage a step performs, `none` for a step that is not one of the eight. -/
def Event.stage {L : Lib} : Event L → Option Stage
  | .docoptParse _ => some .parseArguments
  | .atoi _ => some .parsePort
  | .urlParse _ => some .parseSource
  | .strToRegion _ => some .resolveRegion
  | .envAuth => some .loadCredentials
  | .details _ => some .hostDetails
  | .newMetrics => some .createMetrics
  | .listenAndServe _ _ => some .listen
  | _ => none

/-- The order in which `main` goes through the stages. -/
def startupOrder : List Stage :=
  [.parseArguments, .parsePort, .parseSource, .resolveRegion, .loadCredentials,
   .hostDetails, .createMetrics, .listen]

/-- Whether a step ends the process before the server is started. -/
def Event.aborts {L : Lib} : Event L → Bool
  | .docoptExit => true
  | .logFatal _ => true
  | .logFatalf _ _ => true
  | .nilDereference => true
  | _ => false

/-! ## The request core (spec §3-§5)

`NewRoutes(&config, metrics, &metricsFactory)` (main.go 159) builds the HTTP
handler. Its code, the Request Router and the Fetch Coordinator, is in other
files of the repository; the definitions of this section follow the design the
specification gives for it. Concurrency is by interleaving: every request is a
task, and a run is a sequence of atomic steps of tasks, in any order. The
atomic steps are the ones the specification fixes: the decision to serve from
the target, join a ticket or become the fetcher; the source read; the target
write with the end of the resolution; the response. -/

/-- Modelled from the spec: `ObjectKey` (§3), the path that names an object in
both buckets. The routing code that forms keys is not in `main.go`. -/
abbrev ObjectKey := String

/-- Modelled from the spec: what the Storage Gateway's `Read` returns (§4.3), a
byte stream with its size and content type. The gateway code is not in
`main.go`. -/
structure Object where
  body : List Nat
  size : Nat
  contentType : String
  deriving DecidableEq, Repr

/-- Modelled from the spec: the Storage Gateway's error classes (§4.3):
not-found, access-denied, transient/network, and other. The gateway code is not
in `main.go`. -/
inductive ErrorClass where
  | notFound
  | accessDenied
  | transient
  | other
  deriving DecidableEq, Repr

/-- Modelled from the spec: the error taxonomy of §7, which classifies a failed
`FetchResult` (§4.2) and tags error metrics: `NotFound`, `UpstreamError`,
`StorageError`, `InternalError`. The coordinator code is not in `main.go`. -/
inductive ErrorKind where
  | NotFound
  | UpstreamError
  | StorageError
  | InternalError
  deriving DecidableEq, Repr

/-- Modelled from the spec: `FetchResult` (§4.2), success with the fetched
object or a classified failure. The coordinator code is not in `main.go`. -/
inductive FetchResult where
  | success (obj : Object)
  | failure (kind : ErrorKind)
  deriving DecidableEq, Repr

/-- Modelled from the spec: the request methods the Router tells apart (§4.1):
`GET`, `HEAD`, and any other. The router code is not in `main.go`. -/
inductive Method where
  | GET
  | HEAD
  | other
  deriving DecidableEq, Repr

/-- Modelled from the spec: what `Handle` returns (§4.1, §6): a status, the
content type and length when known, and the body when one is streamed. The
router code is not in `main.go`. -/
structure Response where
  status : Nat
  contentType : Option String
  contentLength : Option Nat
  body : Option (List Nat)
  deriving DecidableEq, Repr

/-- Modelled from the spec: the kinds of event the Metrics Sink accepts (§6):
hit, miss-filled, miss-absent, and error with its class. The metrics code is
not in `main.go`. -/
inductive MetricKind where
  | hit
  | missFilled
  | missAbsent
  | error (kind : ErrorKind)
  deriving DecidableEq, Repr

/-- Modelled from the spec: the calls a request makes on its collaborators, in
the data flow of §2: the existence/read request on the target gateway, the
read on the source gateway, the write on the target gateway, and the metric
emission. The router and coordinator code is not in `main.go`. -/
inductive OpKind where
  | targetRead (key : ObjectKey)
  | sourceRead (key : ObjectKey)
  | targetWrite (key : ObjectKey)
  | metric (kind : MetricKind) (key : ObjectKey)
  deriving DecidableEq, Repr

/-- Modelled from the spec: a collaborator call together with the number of the
request that made it (the call-count instrumentation of §8). The router and
coordinator code is not in `main.go`. -/
structure Op where
  task : Nat
  kind : OpKind
  deriving DecidableEq, Repr

/-- Modelled from the spec: where a request stands in §4.1 and §4.2.
`arrived`: nothing done yet. `waiting`: it joined an existing ticket and is
suspended on its completion signal (step 2). `fetching`: it installed the
ticket and is about to read the source (step 3). `writing`: the source read
succeeded and it is about to write the target. `resolved`: `Resolve` has
returned the result to the Router. `done`: the response is produced. The router
and coordinator code is not in `main.go`. -/
inductive Progress where
  | arrived
  | waiting (key : ObjectKey)
  | fetching (key : ObjectKey)
  | writing (key : ObjectKey) (obj : Object)
  | resolved (key : ObjectKey) (result : FetchResult)
  | done (response : Response)
  deriving DecidableEq, Repr

/-- Modelled from the spec: one inbound HTTP request and the logical task that
handles it (§5, "one logical task per inbound HTTP request"). The router code
is not in `main.go`. -/
structure Request where
  method : Method
  path : String
  progress : Progress
  deriving DecidableEq, Repr

/-- Modelled from the spec: the state the requests act on. `target` is the
content of the target bucket, the source of truth for cache entries (§3);
`tickets` is the live ticket table of the Fetch Coordinator, the keys with a
`FetchTicket` in flight (§3, §5); `requests` are the requests received so far,
numbered from 0; `log` is the collaborator calls made so far, oldest first.
The router and coordinator code is not in `main.go`. -/
structure ProxyState where
  target : ObjectKey → Option Object
  tickets : List ObjectKey
  requests : List Request
  log : List Op

/-- Modelled from the spec: how the storage collaborators answer (§4.3). The
source is remote and read-only, so its `Read` depends on the key alone; the
target's `Exists`/`Read` answers from the bucket unless the gateway fails with
`targetReadError`, and its `Write` stores the object unless it fails with
`targetWriteError`. The gateway code is not in `main.go`. -/
structure Storage where
  sourceRead : ObjectKey → Except ErrorClass Object
  targetReadError : ObjectKey → Option ErrorClass
  targetWriteError : ObjectKey → Option ErrorClass

/-- Modelled from the spec: the request path with its leading slash stripped
(§3). The router code is not in `main.go`. -/
def stripLeadingSlash (path : String) : String :=
  match path.toList with
  | '/' :: rest => String.mk rest
  | _ => path

/-- Modelled from the spec: the `ObjectKey` of a request, "formed by
concatenating a configured prefix with the HTTP request path (leading slash
stripped)" (§3). The router code is not in `main.go`. -/
def objectKey (keyPrefix : String) (path : String) : ObjectKey :=
  keyPrefix ++ stripLeadingSlash path

/-- Modelled from the spec: the response to a hit (§4.1): the object's body with
its stored content length and type, status 200, or 204 and metadata only for
`HEAD`. The router code is not in `main.go`. -/
def hitResponse (m : Method) (obj : Object) : Response :=
  match m with
  | .HEAD => ⟨204, some obj.contentType, some obj.size, none⟩
  | _ => ⟨200, some obj.contentType, some obj.size, some obj.body⟩

/-- Modelled from the spec: a response that is a status and nothing else, as for
the error statuses of §6 and §7. The router code is not in `main.go`. -/
def statusOnly (status : Nat) : Response :=
  ⟨status, none, none, none⟩

/-- Modelled from the spec: the response to the coordinator's result (§4.1, §6,
§7): success streams the fetched object with status 200 (`HEAD`: same status and
headers, no body); not found upstream is 404; an upstream or storage error is
502; an internal error is 500. The router code is not in `main.go`. -/
def resolvedResponse (m : Method) : FetchResult → Response
  | .success obj =>
    match m with
    | .HEAD => ⟨200, some obj.contentType, some obj.size, none⟩
    | _ => ⟨200, some obj.contentType, some obj.size, some obj.body⟩
  | .failure .NotFound => statusOnly 404
  | .failure .UpstreamError => statusOnly 502
  | .failure .StorageError => statusOnly 502
  | .failure .InternalError => statusOnly 500

/-- Modelled from the spec: the metric the Router emits for the coordinator's
result (§4.1): miss-filled, miss-absent, or error tagged with the class. The
router code is not in `main.go`. -/
def resolvedMetric : FetchResult → MetricKind
  | .success _ => .missFilled
  | .failure .NotFound => .missAbsent
  | .failure kind => .error kind

/-- Modelled from the spec: request `i` moves on to `progress`, having made the
collaborator calls `ops` (the transitions of §4.1 and §4.2 that end no
resolution). The router and coordinator code is not in `main.go`. -/
def advance (s : ProxyState) (i : Nat) (r : Request) (progress : Progress)
    (ops : List OpKind) : ProxyState :=
  { s with
    requests := s.requests.set i { r with progress := progress }
    log := s.log ++ ops.map (Op.mk i) }

/-- Modelled from the spec: waking one waiter of the ticket for `key` (§4.2 step
2): a request suspended on that ticket gets the ticket's result. The
coordinator code is not in `main.go`. -/
def wake (key : ObjectKey) (result : FetchResult) (r : Request) : Request :=
  if r.progress = .waiting key then { r with progress := .resolved key result } else r

/-- Modelled from the spec: the end of a resolution (§4.2 step 3), "result = ...;
remove ticket; wake waiters", done by the fetching request `i` after the calls
`ops`: the ticket for `key` leaves the table, and the fetcher and every request
waiting on the ticket have `result`. The coordinator code is not in `main.go`. -/
def complete (s : ProxyState) (i : Nat) (r : Request) (key : ObjectKey)
    (result : FetchResult) (ops : List OpKind) : ProxyState :=
  { s with
    tickets := s.tickets.filter (fun k => k ≠ key)
    requests := (s.requests.map (wake key result)).set i
      { r with progress := .resolved key result }
    log := s.log ++ ops.map (Op.mk i) }

/-- Modelled from the spec: the entry of request `i` into `Resolve` for `key`
(§4.2 steps 1-3, the critical section on the ticket table): look the key up in
the live ticket table; when a ticket exists, join it and wait on its completion
signal; when none exists, create one, install it and become the fetcher. `ops`
are the calls the request made on the way. The coordinator code is not in
`main.go`. -/
def enterResolve (s : ProxyState) (i : Nat) (r : Request) (key : ObjectKey)
    (ops : List OpKind) : ProxyState :=
  if key ∈ s.tickets then advance s i r (.waiting key) ops
  else { advance s i r (.fetching key) ops with tickets := key :: s.tickets }

/-- Modelled from the spec: one atomic step of the Request Router for request `i`
(§4.1). On arrival: a method other than `GET` and `HEAD` is answered 405 with no
backend access; otherwise the key is computed and the target gateway is asked
for it: an unexpected gateway error is 500 with an error metric, a hit is
answered from the bucket with a hit metric, a miss is delegated to the Fetch
Coordinator. The miss and the entry into `Resolve` are one step: the tie-break
rule of §4.2 ("two requests arriving simultaneously for the same missing key
must never both read from source") leaves no room for a resolution of the key
to end between a request's miss and its lookup in the ticket table. When
`Resolve` has returned: the result is turned into the response and the metric.
The router code is not in `main.go`. -/
def routerStep (G : Storage) (keyPrefix : String) (s : ProxyState) (i : Nat)
    (r : Request) : ProxyState :=
  match r.progress with
  | .arrived =>
    match r.method with
    | .other => advance s i r (.done (statusOnly 405)) []
    | _ =>
      let key := objectKey keyPrefix r.path
      match G.targetReadError key with
      | some _ =>
        advance s i r (.done (statusOnly 500))
          [.targetRead key, .metric (.error .InternalError) key]
      | none =>
        match s.target key with
        | some obj =>
          advance s i r (.done (hitResponse r.method obj)) [.targetRead key, .metric .hit key]
        | none => enterResolve s i r key [.targetRead key]
  | .resolved key result =>
    advance s i r (.done (resolvedResponse r.method result))
      [.metric (resolvedMetric result) key]
  | _ => s

/-- Modelled from the spec: one atomic step of the fetcher in `Resolve` (§4.2
step 3), outside the critical section. It reads the source: not found ends the
resolution with failure(not-found), any other error with
failure(upstream-error); on success it writes the object to the target at the
same key: a failed write ends the resolution with failure(storage-error), a
successful one with success. The coordinator code is not in `main.go`. -/
def resolveStep (G : Storage) (s : ProxyState) (i : Nat) (r : Request) : ProxyState :=
  match r.progress with
  | .fetching key =>
    match G.sourceRead key with
    | .error .notFound => complete s i r key (.failure .NotFound) [.sourceRead key]
    | .error _ => complete s i r key (.failure .UpstreamError) [.sourceRead key]
    | .ok obj => advance s i r (.writing key obj) [.sourceRead key]
  | .writing key obj =>
    match G.targetWriteError key with
    | some _ => complete s i r key (.failure .StorageError) [.targetWrite key]
    | none =>
      complete { s with target := fun k => if k = key then some obj else s.target k }
        i r key (.success obj) [.targetWrite key]
  | _ => s

/-- Modelled from the spec: one atomic step of request `i` (§5, one task per
request): a Router step on arrival and after `Resolve` returned, a fetcher step
inside `Resolve`; a request that is suspended on a ticket, or done, or not
there, does nothing. The router and coordinator code is not in `main.go`. -/
def step (G : Storage) (keyPrefix : String) (s : ProxyState) (i : Nat) : ProxyState :=
  match s.requests[i]? with
  | none => s
  | some r =>
    match r.progress with
    | .arrived => routerStep G keyPrefix s i r
    | .resolved _ _ => routerStep G keyPrefix s i r
    | .fetching _ => resolveStep G s i r
    | .writing _ _ => resolveStep G s i r
    | .waiting _ => s
    | .done _ => s

/-- Modelled from the spec: what a schedule is made of (§5, "one logical task per
inbound HTTP request, running concurrently with all others"): a new request
arrives, or request `i` takes its next step. The serving loop is not in
`main.go`. -/
inductive Action where
  | arrive (m : Method) (path : String)
  | run (i : Nat)
  deriving DecidableEq, Repr

/-- Modelled from the spec: the effect of one action of a schedule: a new
request joins the list with nothing done, or request `i` takes a step. The
serving loop is not in `main.go`. -/
def act (G : Storage) (keyPrefix : String) (s : ProxyState) : Action → ProxyState
  | .arrive m path => { s with requests := s.requests ++ [⟨m, path, .arrived⟩] }
  | .run i => step G keyPrefix s i

/-- Modelled from the spec: the state after a schedule, its actions taken in
order; the schedules are all the interleavings of the requests' steps. The
serving loop is not in `main.go`. -/
def exec (G : Storage) (keyPrefix : String) (s : ProxyState) (acts : List Action) :
    ProxyState :=
  acts.foldl (act G keyPrefix) s

/-- Modelled from the spec: the proxy right after startup, in front of a target
bucket with content `target`: no request, no ticket, no call made. The
router and coordinator code is not in `main.go`. -/
def startState (target : ObjectKey → Option Object) : ProxyState :=
  { target := target, tickets := [], requests := [], log := [] }

/-- The source reads of `key` among the calls of `log`. -/
def sourceReads (key : ObjectKey) (log : List Op) : List Op :=
  log.filter (fun op => op.kind = .sourceRead key)

/-- The scenario of §8: the object at `prod/app.tar.gz`, ten bytes. -/
def appObject : Object :=
  { body := [1, 2, 3, 4, 5, 6, 7, 8, 9, 10], size := 10, contentType := "application/gzip" }

/-- The scenario of §8: a source that holds `prod/app.tar.gz` and nothing else,
and a target gateway that never fails. -/
def appStorage : Storage :=
  { sourceRead := fun k => if k = "prod/app.tar.gz" then .ok appObject else .error .notFound
    targetReadError := fun _ => none
    targetWriteError := fun _ => none }

/-- The key a request's progress names, once its Router has computed one. -/
def Progress.key? : Progress → Option ObjectKey
  | .arrived => none
  | .waiting key => some key
  | .fetching key => some key
  | .writing key _ => some key
  | .resolved key _ => some key
  | .done _ => none

/-- A request past its arrival and not yet answered is a `GET` or a `HEAD`, and
the key it works on is the `ObjectKey` of its path. -/
def Request.WellKeyed (keyPrefix : String) (r : Request) : Prop :=
  ∀ key, r.progress.key? = some key → r.method ≠ .other ∧ key = objectKey keyPrefix r.path

/-- Whether a request holds the ticket for `key`: it installed it and has not
completed the resolution. -/
def Request.fetches (key : ObjectKey) (r : Request) : Bool :=
  match r.progress with
  | .fetching k => k = key
  | .writing k _ => k = key
  | _ => false

/-- The ticket discipline of the Fetch Coordinator (§4.2, §5): a key has a ticket
in the table exactly when one request holds it, no key has two holders, a
suspended request waits on a ticket that is in the table, every request past
its arrival works on the key of its path, and every call in the log was made
by a request past its arrival. -/
structure TicketDiscipline (keyPrefix : String) (s : ProxyState) : Prop where
  wellKeyed : ∀ (j : Nat) (r : Request), s.requests[j]? = some r → r.WellKeyed keyPrefix
  holders : ∀ key : ObjectKey,
    s.requests.countP (fun r => r.fetches key) = if key ∈ s.tickets then 1 else 0
  waiters : ∀ (j : Nat) (r : Request) (key : ObjectKey),
    s.requests[j]? = some r → r.progress = .waiting key → key ∈ s.tickets
  callers : ∀ op ∈ s.log, ∃ r, s.requests[op.task]? = some r ∧ r.progress ≠ .arrived

/-- The key `k` stays out of the target bucket, and every resolution of `k` ends
in the failure `res0`: the object is absent from the target; a request writes
`k` only with the object it read from the source; every write of `k` in the log
followed a successful source read; a request works on `k` only after the target
gateway answered its existence check; every result returned for `k` is `res0`;
and every answer to a `GET` or `HEAD` for `k` is the response to `res0` when the
target gateway answers the existence check for `k`, and a bare 500 when it does
not. -/
structure Unfilled (G : Storage) (keyPrefix : String) (k : ObjectKey) (res0 : FetchResult)
    (s : ProxyState) : Prop where
  absent : s.target k = none
  fetched : ∀ (j : Nat) (r : Request) (obj : Object),
    s.requests[j]? = some r → r.progress = .writing k obj → G.sourceRead k = .ok obj
  writes : ∀ op ∈ s.log, op.kind = .targetWrite k → ∃ obj, G.sourceRead k = .ok obj
  entered : ∀ (j : Nat) (r : Request),
    s.requests[j]? = some r → r.progress.key? = some k → G.targetReadError k = none
  resolved : ∀ (j : Nat) (r : Request) (res : FetchResult),
    s.requests[j]? = some r → r.progress = .resolved k res → res = res0
  answered : ∀ (j : Nat) (r : Request) (resp : Response),
    s.requests[j]? = some r → r.method ≠ .other → objectKey keyPrefix r.path = k →
    r.progress = .done resp →
    (G.targetReadError k = none ∧ resp = resolvedResponse r.method res0) ∨
      (G.targetReadError k ≠ none ∧ resp = statusOnly 500)

/-- A request holds the ticket for a key only while the target bucket has no
object at that key: the fetcher installed the ticket on a miss, and its
successful write ends the resolution. -/
def HoldersMiss (s : ProxyState) : Prop :=
  ∀ (j : Nat) (r : Request) (key : ObjectKey),
    s.requests[j]? = some r → r.fetches key = true → s.target key = none

/-- The number of steps a request may still take: the length of the longest
path from its progress to `done`. -/
def Progress.rank : Progress → Nat
  | .arrived => 5
  | .fetching _ => 4
  | .writing _ _ => 3
  | .waiting _ => 2
  | .resolved _ _ => 1
  | .done _ => 0

/-- The steps all requests together may still take. -/
def pending (s : ProxyState) : Nat :=
  (s.requests.map (fun r => r.progress.rank)).sum

/-- What a step of request `i` does when the request `r` can take one, by the
request's progress and the collaborators' answers: the eleven branches of
`routerStep` and `resolveStep`. -/
def StepCase (G : Storage) (keyPrefix : String) (s : ProxyState) (i : Nat) (r : Request) :
    Prop :=
  (r.progress = .arrived ∧ r.method = .other ∧
      step G keyPrefix s i = advance s i r (.done (statusOnly 405)) []) ∨
  (r.progress = .arrived ∧ r.method ≠ .other ∧
      G.targetReadError (objectKey keyPrefix r.path) ≠ none ∧
      step G keyPrefix s i = advance s i r (.done (statusOnly 500))
        [.targetRead (objectKey keyPrefix r.path),
         .metric (.error .InternalError) (objectKey keyPrefix r.path)]) ∨
  (∃ obj, r.progress = .arrived ∧ r.method ≠ .other ∧
      G.targetReadError (objectKey keyPrefix r.path) = none ∧
      s.target (objectKey keyPrefix r.path) = some obj ∧
      step G keyPrefix s i = advance s i r (.done (hitResponse r.method obj))
        [.targetRead (objectKey keyPrefix r.path), .metric .hit (objectKey keyPrefix r.path)]) ∨
  (r.progress = .arrived ∧ r.method ≠ .other ∧
      G.targetReadError (objectKey keyPrefix r.path) = none ∧
      s.target (objectKey keyPrefix r.path) = none ∧
      objectKey keyPrefix r.path ∈ s.tickets ∧
      step G keyPrefix s i = advance s i r (.waiting (objectKey keyPrefix r.path))
        [.targetRead (objectKey keyPrefix r.path)]) ∨
  (r.progress = .arrived ∧ r.method ≠ .other ∧
      G.targetReadError (objectKey keyPrefix r.path) = none ∧
      s.target (objectKey keyPrefix r.path) = none ∧
      objectKey keyPrefix r.path ∉ s.tickets ∧
      step G keyPrefix s i =
        { advance s i r (.fetching (objectKey keyPrefix r.path))
            [.targetRead (objectKey keyPrefix r.path)] with
          tickets := objectKey keyPrefix r.path :: s.tickets }) ∨
  (∃ key res, r.progress = .resolved key res ∧
      step G keyPrefix s i = advance s i r (.done (resolvedResponse r.method res))
        [.metric (resolvedMetric res) key]) ∨
  (∃ key, r.progress = .fetching key ∧ G.sourceRead key = .error .notFound ∧
      step G keyPrefix s i = complete s i r key (.failure .NotFound) [.sourceRead key]) ∨
  (∃ key e, r.progress = .fetching key ∧ G.sourceRead key = .error e ∧
      e ≠ .notFound ∧
      step G keyPrefix s i = complete s i r key (.failure .UpstreamError) [.sourceRead key]) ∨
  (∃ key obj, r.progress = .fetching key ∧ G.sourceRead key = .ok obj ∧
      step G keyPrefix s i = advance s i r (.writing key obj) [.sourceRead key]) ∨
  (∃ key obj, r.progress = .writing key obj ∧ G.targetWriteError key ≠ none ∧
      step G keyPrefix s i = complete s i r key (.failure .StorageError) [.targetWrite key]) ∨
  (∃ key obj, r.progress = .writing key obj ∧ G.targetWriteError key = none ∧
      step G keyPrefix s i =
        complete { s with target := fun k => if k = key then some obj else s.target k }
          i r key (.success obj) [.targetWrite key])

/-- A storage like `appStorage` whose target gateway fails every write. -/
def brokenTargetStorage : Storage :=
  { sourceRead := fun k => if k = "prod/app.tar.gz" then .ok appObject else .error .notFound
    targetReadError := fun _ => none
    targetWriteError := fun _ => some .accessDenied }

/-- A storage like `appStorage` whose target gateway fails every existence
check. -/
def unreachableTargetStorage : Storage :=
  { sourceRead := fun k => if k = "prod/app.tar.gz" then .ok appObject else .error .notFound
    targetReadError := fun _ => some .transient
    targetWriteError := fun _ => none }

/-- A storage like `unreachableTargetStorage` whose target gateway fails every
write as well. -/
def deadTargetStorage : Storage :=
  { sourceRead := fun k => if k = "prod/app.tar.gz" then .ok appObject else .error .notFound
    targetReadError := fun _ => some .transient
    targetWriteError := fun _ => some .accessDenied }

/-- An empty target bucket. -/
def emptyBucket : ObjectKey → Option Object :=
  fun _ => none

/-- A target bucket that holds `appObject` at `prod/app.tar.gz` and nothing
else. -/
def cachedBucket : ObjectKey → Option Object :=
  fun k => if k = "prod/app.tar.gz" then some appObject else none

/-- A run in which request 0 for `/prod/app.tar.gz` is handled to its end, and then
request 1 for the same path arrives. -/
def fillThenArrive : List Action :=
  [.arrive .GET "/prod/app.tar.gz", .run 0, .run 0, .run 0, .run 0,
   .arrive .GET "/prod/app.tar.gz"]

/-- A run in which one request for `/missing` is handled to its end. -/
def missingRun : List Action :=
  [.arrive .GET "/missing", .run 0, .run 0, .run 0]

/-- A run in which one `GET` for `/prod/app.tar.gz` is handled to its end. -/
def singleRun : List Action :=
  [.arrive .GET "/prod/app.tar.gz", .run 0, .run 0, .run 0, .run 0]

theorem split_unique {α : Type} (p : α → Bool) :
    ∀ (pre pre' post post' : List α) (x x' : α),
      pre ++ x :: post = pre' ++ x' :: post' → p x = true → p x' = true →
      (∀ e ∈ pre', p e = false) → (∀ e ∈ post', p e = false) →
      pre = pre' ∧ x = x' ∧ post = post' := by
  intro pre
  induction pre with
  | nil =>
    intro pre' post post' x x' h hx hx' hpre hpost
    cases pre' with
    | nil =>
      simp at h
      exact ⟨rfl, h.1, h.2⟩
    | cons a pre'' =>
      simp at h
      have := hpre a (by simp)
      rw [← h.1, hx] at this
      cases this
  | cons a pre1 ih =>
    intro pre' post post' x x' h hx hx' hpre hpost
    cases pre' with
    | nil =>
      simp at h
      have := hpost x (by rw [← h.2]; simp)
      rw [hx] at this
      cases this
    | cons b pre'' =>
      simp at h
      obtain ⟨h1, h2, h3⟩ := ih pre'' post post' x x' h.2 hx hx'
        (fun e he => hpre e (by simp [he])) hpost
      exact ⟨by rw [h.1, h1], h2, h3⟩

theorem stringOrEmpty_eq (o : Option String) : stringOrEmpty o = o.getD "" := by
  cases o <;> rfl

theorem strToRegion_cases (s : String) :
    (s ∈ supportedRegions → ∃ r, strToRegion s = (some r, none)) ∧
    (s ∉ supportedRegions → strToRegion s = (none, some ⟨"Unknown region " ++ s⟩)) := by
  unfold strToRegion supportedRegions
  split <;> simp_all

theorem Atoi_8080 (intSize : IntSize) : Atoi intSize "8080" = some 8080 := by
  cases intSize <;> decide

theorem demo_run_config : Event.config demoConfig ∈ main demoLib demoArgv := by
  have hp : Atoi .bits64 "9000" = some 9000 := by decide
  simp [main, demoLib, demoArgv, demoConfig, docoptArguments, hp, strToRegion, stringOrEmpty]

theorem main_config_shape (L : Lib) (argv : List String) (c : ProxyConfig L.URL L.Bucket)
    (h : Event.config c ∈ main L argv) :
    ∃ pre rest, main L argv = pre ++ Event.config c :: rest ∧
      (∀ e ∈ pre, e.writesConfig = false) ∧
      (∀ e ∈ rest, e.writesConfig = false) ∧
      (∀ hd c', Event.newMetricFactory hd c' ∈ main L argv →
        c' = c ∧ Event.newMetricFactory hd c' ∈ rest) ∧
      (∀ c' m f, Event.newRoutes c' m f ∈ main L argv →
        c' = c ∧ Event.newRoutes c' m f ∈ rest) ∧
      (∀ addr routes, Event.listenAndServe addr routes ∈ main L argv →
        ∃ hd m, routes = L.newRoutes c m (L.newMetricFactory hd c)) := by
  unfold main at h ⊢
  rcases h1 : L.docoptParse argv with _ | ⟨e | cl⟩ <;> simp [h1] at h
  rcases h2 : Atoi L.intSize (docoptArguments cl).port with _ | port <;> simp [h2] at h
  rcases h3 : L.urlParse (docoptArguments cl).source with e | url <;> simp [h3] at h
  rcases h4 : strToRegion (docoptArguments cl).region with ⟨r, _ | e⟩ <;> simp [h4] at h
  rcases h5 : L.envAuth with e | auth <;> simp [h5] at h
  rcases r with _ | regionObj <;> simp at h
  have hc : c = { Source := url,
                  Bucket := L.bucket (L.s3New auth regionObj) (docoptArguments cl).bucket,
                  Prefix := stringOrEmpty (docoptArguments cl).pathPrefix } := by
    rcases h with h | h
    · exact h
    · split at h
      · simp at h
      · simp at h
        split at h <;> simp at h
        split at h <;> simp at h
  clear h
  subst hc
  simp only [h2, h3, h4]
  refine ⟨[.docoptParse argv, .atoi (docoptArguments cl).port,
    .urlParse (docoptArguments cl).source, .strToRegion (docoptArguments cl).region,
    .envAuth, .s3New auth regionObj,
    .bucket (L.s3New auth regionObj) (docoptArguments cl).bucket], _, rfl, ?_, ?_⟩
  · simp [Event.writesConfig]
  · simp only [List.mem_cons]
    split
    · simp [Event.writesConfig]
    · split
      · simp [Event.writesConfig]
      · split <;> simp [Event.writesConfig]
        all_goals exact ⟨_, _, rfl⟩

theorem demo_run_split :
    main demoLib demoArgv = demoPre ++ Event.config demoConfig :: demoPost := by
  have hp : Atoi .bits64 "9000" = some 9000 := by decide
  have ha : listenAddr 9000 = ":9000" := by decide
  simp [main, demoLib, demoArgv, demoConfig, demoPre, demoPost, docoptArguments, hp, ha,
    strToRegion, stringOrEmpty]

/-! ## Startup: the claims about `strToRegion` and `main` -/

/-- C1: whenever a run of `main` reaches the construction of the `ProxyConfig`,
the command line was matched, `--source` parsed to a URL, `--region` resolved to
a region and the credentials were loaded, and the constructed value has
`Source` equal to that URL, `Bucket` equal to the handle for the bucket named
by `--bucket` on the S3 client made from the credentials and the resolved
region, and `Prefix` equal to the `--prefix` string, or the empty string when
`--prefix` is absent. -/
theorem config_fields (L : Lib) (argv : List String) (c : ProxyConfig L.URL L.Bucket)
    (h : Event.config c ∈ main L argv) :
    ∃ cl url regionObj auth,
      L.docoptParse argv = some (.ok cl) ∧
      L.urlParse cl.source = .ok url ∧
      strToRegion cl.region = (some regionObj, none) ∧
      L.envAuth = .ok auth ∧
      c.Source = url ∧
      c.Bucket = L.bucket (L.s3New auth regionObj) cl.bucket ∧
      (∀ p, cl.pathPrefix = some p → c.Prefix = p) ∧
      (cl.pathPrefix = none → c.Prefix = "") := by
  unfold main at h
  rcases h1 : L.docoptParse argv with _ | ⟨e | cl⟩ <;> simp [h1] at h
  rcases h2 : Atoi L.intSize (docoptArguments cl).port with _ | port <;> simp [h2] at h
  rcases h3 : L.urlParse (docoptArguments cl).source with e | url <;> simp [h3] at h
  rcases h4 : strToRegion (docoptArguments cl).region with ⟨r, _ | e⟩ <;> simp [h4] at h
  rcases h5 : L.envAuth with e | auth <;> simp [h5] at h
  rcases r with _ | regionObj <;> simp at h
  have hc : c = { Source := url,
                  Bucket := L.bucket (L.s3New auth regionObj) (docoptArguments cl).bucket,
                  Prefix := stringOrEmpty (docoptArguments cl).pathPrefix } := by
    rcases h with h | h
    · exact h
    · split at h
      · simp at h
      · simp at h
        split at h <;> simp at h
        split at h <;> simp at h
  refine ⟨cl, url, regionObj, auth, rfl, h3, h4, rfl, ?_⟩
  subst hc
  cases hp : cl.pathPrefix <;> simp [docoptArguments, hp, stringOrEmpty]

/-- Witness for C1: the run `main demoLib demoArgv` constructs `demoConfig`, and
the theorem applies to it. -/
theorem config_fields_witness :
    Event.config demoConfig ∈ main demoLib demoArgv ∧
    ∃ cl url regionObj auth,
      demoLib.docoptParse demoArgv = some (.ok cl) ∧
      demoLib.urlParse cl.source = .ok url ∧
      strToRegion cl.region = (some regionObj, none) ∧
      demoLib.envAuth = .ok auth ∧
      demoConfig.Source = url ∧
      demoConfig.Bucket = demoLib.bucket (demoLib.s3New auth regionObj) cl.bucket ∧
      (∀ p, cl.pathPrefix = some p → demoConfig.Prefix = p) ∧
      (cl.pathPrefix = none → demoConfig.Prefix = "") :=
  ⟨demo_run_config, config_fields demoLib demoArgv demoConfig demo_run_config⟩

/-- C2: `strToRegion` resolves each of the ten supported identifiers to its own
region with a `nil` error, and every S3 client a run of `main` creates is
created in the region `strToRegion` resolves `--region` to. -/
theorem strToRegion_supported :
    strToRegion "us-east-1" = (some Region.USEast, none) ∧
    strToRegion "us-west-1" = (some Region.USWest, none) ∧
    strToRegion "us-west-2" = (some Region.USWest2, none) ∧
    strToRegion "eu-west-1" = (some Region.EUWest, none) ∧
    strToRegion "eu-central-1" = (some Region.EUCentral, none) ∧
    strToRegion "ap-southeast-1" = (some Region.APSoutheast, none) ∧
    strToRegion "ap-southeast-2" = (some Region.APSoutheast2, none) ∧
    strToRegion "ap-northeast-1" = (some Region.APNortheast, none) ∧
    strToRegion "sa-east-1" = (some Region.SAEast, none) ∧
    strToRegion "cn-north-1" = (some Region.CNNorth, none) ∧
    (∀ (L : Lib) (argv : List String) (auth : L.Auth) (r : Region),
      Event.s3New auth r ∈ main L argv →
        ∃ cl, L.docoptParse argv = some (.ok cl) ∧
          strToRegion cl.region = (some r, none)) := by
  refine ⟨rfl, rfl, rfl, rfl, rfl, rfl, rfl, rfl, rfl, rfl, ?_⟩
  intro L argv auth0 r0 h
  unfold main at h
  rcases h1 : L.docoptParse argv with _ | ⟨e | cl⟩ <;> simp [h1] at h
  rcases h2 : Atoi L.intSize (docoptArguments cl).port with _ | port <;> simp [h2] at h
  rcases h3 : L.urlParse (docoptArguments cl).source with e | url <;> simp [h3] at h
  rcases h4 : strToRegion (docoptArguments cl).region with ⟨r, _ | e⟩ <;> simp [h4] at h
  rcases h5 : L.envAuth with e | auth <;> simp [h5] at h
  rcases r with _ | regionObj <;> simp at h
  refine ⟨cl, rfl, ?_⟩
  have hr : r0 = regionObj := by
    rcases h with h | h
    · exact h.2
    · split at h
      · simp at h
      · simp at h
        split at h <;> simp at h
        split at h <;> simp at h
  subst hr
  exact h4

/-- Witness for C2: the demo run, started with `--region=us-west-2`, creates its
S3 client in `USWest2`. -/
theorem strToRegion_supported_witness :
    Event.s3New (L := demoLib) "auth" Region.USWest2 ∈ main demoLib demoArgv ∧
    ∃ cl, demoLib.docoptParse demoArgv = some (.ok cl) ∧
      strToRegion cl.region = (some Region.USWest2, none) :=
  have hrun : Event.s3New (L := demoLib) "auth" Region.USWest2 ∈ main demoLib demoArgv := by
    have hp : Atoi .bits64 "9000" = some 9000 := by decide
    simp [main, demoLib, demoArgv, docoptArguments, hp, strToRegion, stringOrEmpty]
  ⟨hrun, strToRegion_supported.2.2.2.2.2.2.2.2.2.2 demoLib demoArgv "auth" Region.USWest2 hrun⟩

/-- C3: for every string `s`, `strToRegion s` returns an error exactly when `s`
is not one of the ten supported identifiers; when it fails the region is `nil`
and the message is `Unknown region ` followed by `s`; when it succeeds the
region is not `nil`. -/
theorem strToRegion_error_iff (s : String) :
    ((strToRegion s).2 ≠ none ↔ s ∉ supportedRegions) ∧
    ((strToRegion s).2 ≠ none →
      strToRegion s = (none, some ⟨"Unknown region " ++ s⟩)) ∧
    ((strToRegion s).2 = none → (strToRegion s).1 ≠ none) := by
  unfold strToRegion supportedRegions
  split <;> simp_all

/-- Witness for C3: the comparison is exact. A different case, a leading or a
trailing blank, and the empty string are all unknown regions; `eu-west-1`
resolves. -/
theorem strToRegion_error_iff_witness :
    strToRegion "US-EAST-1" = (none, some ⟨"Unknown region US-EAST-1"⟩) ∧
    strToRegion " us-east-1" = (none, some ⟨"Unknown region  us-east-1"⟩) ∧
    strToRegion "us-east-1 " = (none, some ⟨"Unknown region us-east-1 "⟩) ∧
    strToRegion "" = (none, some ⟨"Unknown region "⟩) ∧
    (strToRegion "eu-west-1").1 ≠ none :=
  ⟨(strToRegion_error_iff "US-EAST-1").2.1 (by decide),
   (strToRegion_error_iff " us-east-1").2.1 (by decide),
   (strToRegion_error_iff "us-east-1 ").2.1 (by decide),
   (strToRegion_error_iff "").2.1 (by decide),
   (strToRegion_error_iff "eu-west-1").2.2 (by decide)⟩

/-- C4: for a matched command line, (1) when the `--port` entry parses as the
integer `n`, every address handed to `http.ListenAndServe` is `:` followed by
the decimal rendering of `n`, and the server is started on it when the later
stages succeed; (2) with `--port` omitted the entry is `8080`, which parses, and
the address is `:8080`; (3) a given `--port` is the entry; (4) when the entry does
not parse, the run is exactly argument parsing, the `Atoi` call and
`log.Fatalf("Cannot parse port into int: %v", err)`, so nothing listens. -/
theorem listen_port (L : Lib) (argv : List String) (cl : CommandLine)
    (hcl : L.docoptParse argv = some (.ok cl)) :
    (∀ n : Int, Atoi L.intSize (docoptArguments cl).port = some n →
      (∀ addr routes, Event.listenAndServe addr routes ∈ main L argv →
        addr = ":" ++ toString n) ∧
      (∀ url auth hd m,
        L.urlParse cl.source = .ok url → cl.region ∈ supportedRegions →
        L.envAuth = .ok auth →
        L.details (L.getHostType (stringOrEmpty cl.metadataURL)) = .ok hd →
        L.newMetrics = .ok m →
        ∃ routes, Event.listenAndServe (":" ++ toString n) routes ∈ main L argv)) ∧
    (cl.port = none →
      Atoi L.intSize (docoptArguments cl).port = some 8080 ∧
      ∀ addr routes, Event.listenAndServe addr routes ∈ main L argv → addr = ":8080") ∧
    (∀ p, cl.port = some p → (docoptArguments cl).port = p) ∧
    (Atoi L.intSize (docoptArguments cl).port = none →
      main L argv =
        [.docoptParse argv, .atoi (docoptArguments cl).port,
         .logFatalf "Cannot parse port into int: %v" (.atoi (docoptArguments cl).port)]) := by
  have key : ∀ n : Int, Atoi L.intSize (docoptArguments cl).port = some n →
      ∀ addr routes, Event.listenAndServe addr routes ∈ main L argv →
        addr = ":" ++ toString n := by
    intro n h2 addr routes h
    unfold main at h
    simp [hcl, h2] at h
    rcases h3 : L.urlParse (docoptArguments cl).source with e | url <;> simp [h3] at h
    rcases h4 : strToRegion (docoptArguments cl).region with ⟨r, _ | e⟩ <;> simp [h4] at h
    rcases h5 : L.envAuth with e | auth <;> simp [h5] at h
    rcases r with _ | regionObj <;> simp at h
    split at h
    · simp at h
    · simp at h
      split at h <;> simp at h
      rcases h with h | h
      · exact h.1
      · split at h <;> simp at h
  refine ⟨fun n h2 => ⟨key n h2, ?_⟩, ?_, ?_, ?_⟩
  · intro url auth hd m h3 h4 h5 h6 h7
    obtain ⟨r, hr⟩ := (strToRegion_cases cl.region).1 h4
    have h3' : L.urlParse (docoptArguments cl).source = .ok url := h3
    have h4' : strToRegion (docoptArguments cl).region = (some r, none) := hr
    have h6' : L.details (L.getHostType (stringOrEmpty (docoptArguments cl).metadataURL))
        = .ok hd := h6
    refine ⟨L.newRoutes ⟨url, L.bucket (L.s3New auth r) cl.bucket,
        stringOrEmpty cl.pathPrefix⟩ m
      (L.newMetricFactory hd ⟨url, L.bucket (L.s3New auth r) cl.bucket,
        stringOrEmpty cl.pathPrefix⟩), ?_⟩
    unfold main
    simp only [hcl, h2, h3', h4', h5, h6', h7]
    simp [listenAddr]
    exact Or.inl rfl
  · intro hnone
    have hport : (docoptArguments cl).port = "8080" := by simp [docoptArguments, hnone]
    rw [hport]
    refine ⟨Atoi_8080 L.intSize, ?_⟩
    intro addr routes h
    have := key 8080 (by rw [hport]; exact Atoi_8080 L.intSize) addr routes h
    simpa using this
  · intro p hp
    simp [docoptArguments, hp]
  · intro h2
    unfold main
    simp [hcl, h2]

/-- Witness for C4: the demo command line gives `--port=9000`, and the demo run
listens on `:9000` only. -/
theorem listen_port_witness :
    demoLib.docoptParse demoArgv = some (.ok demoCommandLine) ∧
    Atoi demoLib.intSize (docoptArguments demoCommandLine).port = some 9000 ∧
    (∀ addr routes, Event.listenAndServe (L := demoLib) addr routes ∈ main demoLib demoArgv →
      addr = ":" ++ toString (9000 : Int)) ∧
    (∃ routes, Event.listenAndServe (L := demoLib) (":" ++ toString (9000 : Int)) routes
      ∈ main demoLib demoArgv) :=
  have hp : Atoi demoLib.intSize (docoptArguments demoCommandLine).port = some 9000 := by decide
  ⟨rfl, hp, ((listen_port demoLib demoArgv demoCommandLine rfl).1 9000 hp).1,
    ((listen_port demoLib demoArgv demoCommandLine rfl).1 9000 hp).2
      "https://example.org/src" "auth" "" () rfl (by decide) rfl rfl rfl⟩

/-- C5: in every run of `main`, the assignment that constructs `config` is the
only step that writes it: if the run is `pre`, then the construction of `c`,
then `post`, no step of `post` (nor of `pre`) writes `config`; every call of
`NewMetricFactory` and of `NewRoutes` in the run comes after the construction
and is handed `c` itself; and the routes the server is started with are built
from `c`. -/
theorem config_written_once (L : Lib) (argv : List String)
    (pre post : List (Event L)) (c : ProxyConfig L.URL L.Bucket)
    (h : main L argv = pre ++ Event.config c :: post) :
    (∀ e ∈ post, e.writesConfig = false) ∧
    (∀ e ∈ pre, e.writesConfig = false) ∧
    (∀ hd c', Event.newMetricFactory hd c' ∈ main L argv →
      c' = c ∧ Event.newMetricFactory hd c' ∈ post) ∧
    (∀ c' m f, Event.newRoutes c' m f ∈ main L argv →
      c' = c ∧ Event.newRoutes c' m f ∈ post) ∧
    (∀ addr routes, Event.listenAndServe addr routes ∈ main L argv →
      ∃ hd m, routes = L.newRoutes c m (L.newMetricFactory hd c)) := by
  have hmem : Event.config c ∈ main L argv := by rw [h]; simp
  obtain ⟨pre', rest, hshape, hpre, hrest, hmf, hroutes, hlisten⟩ :=
    main_config_shape L argv c hmem
  obtain ⟨e1, -, e3⟩ := split_unique Event.writesConfig pre pre' post rest _ _
    (h.symm.trans hshape) rfl rfl hpre hrest
  subst e1 e3
  exact ⟨hrest, hpre, hmf, hroutes, hlisten⟩

/-- Witness for C5: the demo run, split at its construction of `demoConfig`. -/
theorem config_written_once_witness :
    main demoLib demoArgv = demoPre ++ Event.config demoConfig :: demoPost ∧
    (∀ e ∈ demoPost, e.writesConfig = false) ∧
    (∀ c', Event.newMetricFactory (L := demoLib) "" c' ∈ main demoLib demoArgv →
      c' = demoConfig ∧ Event.newMetricFactory (L := demoLib) "" c' ∈ demoPost) ∧
    (∀ c', Event.newRoutes (L := demoLib) c' () () ∈ main demoLib demoArgv →
      c' = demoConfig ∧ Event.newRoutes (L := demoLib) c' () () ∈ demoPost) :=
  ⟨demo_run_split,
   (config_written_once demoLib demoArgv demoPre demoPost demoConfig demo_run_split).1,
   (config_written_once demoLib demoArgv demoPre demoPost demoConfig demo_run_split).2.2.1 "",
   fun c' => (config_written_once demoLib demoArgv demoPre demoPost demoConfig
      demo_run_split).2.2.2.1 c' () ()⟩

/-- C10: startup is ordered and fail-fast. (1) The stages a run goes through are
an initial part of: argument parsing, integer parsing of `--port`, URL parsing
of `--source`, region resolution, loading of credentials, host-details
discovery, metrics creation, listening. (2) If the server is started, every
stage before it succeeded and the run went through all of them in that order.
(3) When `--region` is not one of the ten supported identifiers, the run reads
no credentials, constructs no `ProxyConfig`, does not listen, and ends in an
abort; if it gets as far as region resolution it is `log.Fatal` of
`Unknown region ` followed by the identifier. -/
theorem startup_fail_fast (L : Lib) (argv : List String) :
    ((main L argv).filterMap Event.stage <+: startupOrder) ∧
    (∀ addr routes, Event.listenAndServe addr routes ∈ main L argv →
      ∃ cl port url regionObj auth hostDetails metrics,
        L.docoptParse argv = some (.ok cl) ∧
        Atoi L.intSize (docoptArguments cl).port = some port ∧
        L.urlParse cl.source = .ok url ∧
        strToRegion cl.region = (some regionObj, none) ∧
        L.envAuth = .ok auth ∧
        L.details (L.getHostType (stringOrEmpty cl.metadataURL)) = .ok hostDetails ∧
        L.newMetrics = .ok metrics ∧
        (main L argv).filterMap Event.stage = startupOrder) ∧
    (∀ cl, L.docoptParse argv = some (.ok cl) → cl.region ∉ supportedRegions →
      Event.envAuth ∉ main L argv ∧
      (∀ c, Event.config c ∉ main L argv) ∧
      (∀ addr routes, Event.listenAndServe addr routes ∉ main L argv) ∧
      (∃ e, (main L argv).getLast? = some e ∧ e.aborts = true) ∧
      (∀ port url, Atoi L.intSize (docoptArguments cl).port = some port →
        L.urlParse cl.source = .ok url →
        main L argv =
          [.docoptParse argv, .atoi (docoptArguments cl).port, .urlParse cl.source,
           .strToRegion cl.region,
           .logFatal (.fmt ⟨"Unknown region " ++ cl.region⟩)])) := by
  refine ⟨?_, ?_, ?_⟩
  · unfold main
    rcases h1 : L.docoptParse argv with _ | ⟨e | cl⟩ <;>
      simp [h1, Event.stage, startupOrder]
    rcases h2 : Atoi L.intSize (docoptArguments cl).port with _ | port <;>
      simp [h2, Event.stage]
    rcases h3 : L.urlParse (docoptArguments cl).source with e | url <;>
      simp [h3, Event.stage]
    rcases h4 : strToRegion (docoptArguments cl).region with ⟨r, _ | e⟩ <;>
      simp [h4, Event.stage]
    rcases h5 : L.envAuth with e | auth <;> simp [h5, Event.stage]
    rcases r with _ | regionObj <;> simp [Event.stage]
    split
    · simp [Event.stage]
    · simp [Event.stage]
      split
      · simp [Event.stage]
      · simp [Event.stage]
        split <;> simp [Event.stage]
  · intro addr routes h
    unfold main at h ⊢
    rcases h1 : L.docoptParse argv with _ | ⟨e | cl⟩ <;> simp [h1] at h
    rcases h2 : Atoi L.intSize (docoptArguments cl).port with _ | port <;> simp [h2] at h
    rcases h3 : L.urlParse (docoptArguments cl).source with e | url <;> simp [h3] at h
    rcases h4 : strToRegion (docoptArguments cl).region with ⟨r, _ | e⟩ <;> simp [h4] at h
    rcases h5 : L.envAuth with e | auth <;> simp [h5] at h
    rcases r with _ | regionObj <;> simp at h
    rcases h6 : L.details (L.getHostType (stringOrEmpty (docoptArguments cl).metadataURL))
      with e | hd <;> simp [h6] at h
    rcases h7 : L.newMetrics with e | m <;> simp [h7] at h
    refine ⟨cl, port, url, regionObj, auth, hd, m, rfl, h2, h3, h4, rfl, h6, rfl, ?_⟩
    simp only [h2, h3, h4, h6]
    simp [Event.stage, startupOrder]
    split <;> simp [Event.stage]
  · intro cl h1 hreg
    have h4 : strToRegion (docoptArguments cl).region
        = (none, some ⟨"Unknown region " ++ cl.region⟩) :=
      (strToRegion_cases cl.region).2 hreg
    unfold main
    simp only [h1]
    rcases h2 : Atoi L.intSize (docoptArguments cl).port with _ | port
    · simp [Event.aborts]
    · rcases h3 : L.urlParse (docoptArguments cl).source with e | url
      · have h3' : L.urlParse cl.source = .error e := h3
        simp [Event.aborts, h3']
      · have h3' : L.urlParse cl.source = .ok url := h3
        have h4' : strToRegion cl.region
            = (none, some ⟨"Unknown region " ++ cl.region⟩) := h4
        simp [h4', Event.aborts, h3', docoptArguments]

/-- Witness for C10: started with the region `mars-1`, the demo run stops at
region resolution. -/
theorem startup_fail_fast_witness :
    main demoLib ["https://example.org/src", "mars-1", "replica"] =
      [.docoptParse ["https://example.org/src", "mars-1", "replica"], .atoi "8080",
       .urlParse "https://example.org/src", .strToRegion "mars-1",
       .logFatal (.fmt ⟨"Unknown region mars-1"⟩)] ∧
    Event.envAuth ∉ main demoLib ["https://example.org/src", "mars-1", "replica"] ∧
    (main demoLib demoArgv).filterMap Event.stage = startupOrder :=
  ⟨((startup_fail_fast demoLib ["https://example.org/src", "mars-1", "replica"]).2.2
      ⟨"https://example.org/src", "mars-1", "replica", none, none, none⟩ rfl
      (by decide)).2.2.2.2 8080 "https://example.org/src" (by decide) rfl,
   ((startup_fail_fast demoLib ["https://example.org/src", "mars-1", "replica"]).2.2
      ⟨"https://example.org/src", "mars-1", "replica", none, none, none⟩ rfl
      (by decide)).1,
   by
    obtain ⟨_, _, _, _, _, _, _, _, _, _, _, _, _, _, h⟩ :=
      (startup_fail_fast demoLib demoArgv).2.1 ":9000" "production" (by
        have hp : Atoi .bits64 "9000" = some 9000 := by decide
        have ha : listenAddr 9000 = ":9000" := by decide
        simp [main, demoLib, demoArgv, docoptArguments, hp, ha, strToRegion, stringOrEmpty])
    exact h⟩

/-! ## The request core: what one step does -/

theorem advance_get (s : ProxyState) (i : Nat) (r : Request) (p : Progress)
    (ops : List OpKind) (j : Nat) (x : Request)
    (h : (advance s i r p ops).requests[j]? = some x) :
    (j = i ∧ x = { r with progress := p }) ∨ (j ≠ i ∧ s.requests[j]? = some x) := by
  simp only [advance, List.getElem?_set] at h
  split at h
  · rename_i hij
    split at h
    · simp at h
      exact Or.inl ⟨hij.symm, h.symm⟩
    · simp at h
  · rename_i hij
    exact Or.inr ⟨fun e => hij e.symm, h⟩

theorem complete_get (s : ProxyState) (i : Nat) (r : Request) (key : ObjectKey)
    (res : FetchResult) (ops : List OpKind) (j : Nat) (x : Request)
    (h : (complete s i r key res ops).requests[j]? = some x) :
    (j = i ∧ x = { r with progress := .resolved key res }) ∨
    (j ≠ i ∧ ∃ y, s.requests[j]? = some y ∧ x = wake key res y) := by
  simp only [complete, List.getElem?_set] at h
  split at h
  · rename_i hij
    split at h
    · simp at h
      exact Or.inl ⟨hij.symm, h.symm⟩
    · simp at h
  · rename_i hij
    rw [List.getElem?_map] at h
    cases hy : s.requests[j]? with
    | none => simp [hy] at h
    | some y =>
      simp [hy] at h
      exact Or.inr ⟨fun e => hij e.symm, y, rfl, h.symm⟩

theorem step_run (G : Storage) (pfx : String) (s : ProxyState) (i : Nat) (r : Request)
    (hr : s.requests[i]? = some r) :
    (step G pfx s i = s ∧
      ((∃ key, r.progress = .waiting key) ∨ ∃ resp, r.progress = .done resp)) ∨
    StepCase G pfx s i r := by
  unfold StepCase
  cases hp : r.progress with
  | arrived =>
    right
    by_cases hk : objectKey pfx r.path ∈ s.tickets <;>
      cases hm : r.method <;>
      cases he : G.targetReadError (objectKey pfx r.path) <;>
      cases ht : s.target (objectKey pfx r.path) <;>
      simp [step, hr, hp, hm, he, ht, hk, routerStep, enterResolve]
  | resolved key res =>
    right
    simp [step, hr, hp, routerStep]
    exact ⟨key, res, ⟨rfl, rfl⟩, rfl⟩
  | fetching key =>
    right
    cases hs : G.sourceRead key with
    | error e => cases e <;> simp [step, hr, hp, resolveStep, hs]
    | ok obj => simp [step, hr, hp, resolveStep, hs]
  | writing key obj =>
    right
    cases hw : G.targetWriteError key with
    | some e => simp [step, hr, hp, resolveStep, hw]
    | none =>
      simp [step, hr, hp, resolveStep, hw]
      exact ⟨key, obj, ⟨rfl, rfl⟩, hw, rfl⟩
  | waiting key => left; exact ⟨by simp [step, hr, hp], Or.inl ⟨key, rfl⟩⟩
  | done resp => left; exact ⟨by simp [step, hr, hp], Or.inr ⟨resp, rfl⟩⟩

theorem step_cases (G : Storage) (pfx : String) (s : ProxyState) (i : Nat) :
    step G pfx s i = s ∨ ∃ r, s.requests[i]? = some r ∧ StepCase G pfx s i r := by
  cases hr : s.requests[i]? with
  | none => left; simp [step, hr]
  | some r =>
    rcases step_run G pfx s i r hr with ⟨h, _⟩ | h
    · exact Or.inl h
    · exact Or.inr ⟨r, rfl, h⟩

/-! ## The request core: the ticket discipline holds in every reachable state -/

theorem countP_set_balance {α : Type} (p : α → Bool) :
    ∀ (l : List α) (i : Nat) (r x : α), l[i]? = some r →
      (l.set i x).countP p + (if p r then 1 else 0) = l.countP p + (if p x then 1 else 0) := by
  intro l
  induction l with
  | nil => intro i r x h; simp at h
  | cons a l ih =>
    intro i r x h
    cases i with
    | zero =>
      simp at h
      subst h
      simp only [List.set_cons_zero, List.countP_cons]
      omega
    | succ i =>
      simp at h
      have := ih i r x h
      simp only [List.set_cons_succ, List.countP_cons]
      omega

theorem countP_le_one_unique {α : Type} (p : α → Bool) :
    ∀ (l : List α) (i j : Nat) (a b : α), l.countP p ≤ 1 →
      l[i]? = some a → l[j]? = some b → p a = true → p b = true → i = j := by
  intro l
  induction l with
  | nil => intro i j a b _ h; simp at h
  | cons c l ih =>
    intro i j a b hc hi hj ha hb
    have hpos : ∀ (k : Nat) (x : α), l[k]? = some x → p x = true → 0 < l.countP p := by
      intro k x hk hx
      exact List.countP_pos_iff.2 ⟨x, List.getElem?_mem hk, hx⟩
    cases i with
    | zero =>
      cases j with
      | zero => rfl
      | succ j =>
        simp at hi hj
        subst hi
        have := hpos j b hj hb
        rw [List.countP_cons_of_pos _ _ ha] at hc
        omega
    | succ i =>
      cases j with
      | zero =>
        simp at hi hj
        subst hj
        have := hpos i a hi ha
        rw [List.countP_cons_of_pos _ _ hb] at hc
        omega
      | succ j =>
        simp at hi hj
        have hc' : l.countP p ≤ 1 := by
          have := List.countP_cons p c l
          rw [this] at hc
          omega
        rw [ih i j a b hc' hi hj ha hb]

theorem wake_fetches (key : ObjectKey) (res : FetchResult) (y : Request) (k : ObjectKey) :
    (wake key res y).fetches k = y.fetches k := by
  unfold wake
  split
  · rename_i h
    simp [Request.fetches, h]
  · rfl

theorem wake_method (key : ObjectKey) (res : FetchResult) (y : Request) :
    (wake key res y).method = y.method := by
  unfold wake
  split <;> rfl

theorem wake_path (key : ObjectKey) (res : FetchResult) (y : Request) :
    (wake key res y).path = y.path := by
  unfold wake
  split <;> rfl

theorem wake_progress (key : ObjectKey) (res : FetchResult) (y : Request) :
    (y.progress = .waiting key ∧ (wake key res y).progress = .resolved key res) ∨
    (y.progress ≠ .waiting key ∧ wake key res y = y) := by
  unfold wake
  split
  · rename_i h
    exact Or.inl ⟨h, rfl⟩
  · rename_i h
    exact Or.inr ⟨h, rfl⟩

theorem discipline_arrive (pfx : String) (s : ProxyState) (m : Method) (path : String)
    (h : TicketDiscipline pfx s) :
    TicketDiscipline pfx { s with requests := s.requests ++ [⟨m, path, .arrived⟩] } := by
  constructor
  · intro j r hj
    simp only [List.getElem?_append] at hj
    split at hj
    · exact h.wellKeyed j r hj
    · have := List.getElem?_mem hj
      simp at this
      subst this
      intro key hkey
      simp [Progress.key?] at hkey
  · intro key
    simp only [List.countP_append]
    rw [h.holders key]
    simp [Request.fetches]
  · intro j r key hj hw
    simp only [List.getElem?_append] at hj
    split at hj
    · exact h.waiters j r key hj hw
    · have := List.getElem?_mem hj
      simp at this
      subst this
      simp at hw
  · intro op hop
    obtain ⟨r, hr, hne⟩ := h.callers op hop
    refine ⟨r, ?_, hne⟩
    have hlt : op.task < s.requests.length := by
      rcases List.getElem?_eq_some_iff.1 hr with ⟨hlt, _⟩
      exact hlt
    simp only [List.getElem?_append, hlt, if_true]
    exact hr

theorem discipline_advance (pfx : String) (s : ProxyState) (i : Nat) (r : Request)
    (p : Progress) (ops : List OpKind) (h : TicketDiscipline pfx s)
    (hr : s.requests[i]? = some r)
    (hkeyed : ({ r with progress := p } : Request).WellKeyed pfx)
    (hfetch : ∀ k, ({ r with progress := p } : Request).fetches k = r.fetches k)
    (hwait : ∀ key, p = .waiting key → key ∈ s.tickets)
    (hp : p ≠ .arrived) :
    TicketDiscipline pfx (advance s i r p ops) := by
  have hlt : i < s.requests.length := by
    rcases List.getElem?_eq_some_iff.1 hr with ⟨hlt, _⟩
    exact hlt
  constructor
  · intro j x hj
    rcases advance_get s i r p ops j x hj with ⟨_, hx⟩ | ⟨_, hx⟩
    · rw [hx]; exact hkeyed
    · exact h.wellKeyed j x hx
  · intro key
    have := countP_set_balance (fun r => r.fetches key) s.requests i r
      { r with progress := p } hr
    simp only [hfetch key] at this
    simp only [advance]
    rw [← h.holders key]
    omega
  · intro j x key hj hw
    rcases advance_get s i r p ops j x hj with ⟨_, hx⟩ | ⟨_, hx⟩
    · rw [hx] at hw
      exact hwait key hw
    · exact h.waiters j x key hx hw
  · intro op hop
    simp only [advance, List.mem_append, List.mem_map] at hop
    have hnew : (advance s i r p ops).requests[i]? = some { r with progress := p } := by
      simp [advance, List.getElem?_set, hlt]
    rcases hop with hop | ⟨k, _, hk⟩
    · obtain ⟨x, hx, hne⟩ := h.callers op hop
      by_cases hi : op.task = i
      · rw [hi]
        exact ⟨_, hnew, hp⟩
      · refine ⟨x, ?_, hne⟩
        simp only [advance, List.getElem?_set]
        rw [if_neg (fun e => hi e.symm)]
        exact hx
    · subst hk
      exact ⟨_, hnew, hp⟩

theorem holders_set (l : List Request) (key : ObjectKey) (i : Nat) (r x : Request)
    (hr : l[i]? = some r) :
    (l.set i x).countP (fun r => r.fetches key) + (if r.fetches key = true then 1 else 0)
      = l.countP (fun r => r.fetches key) + (if x.fetches key = true then 1 else 0) :=
  countP_set_balance (fun r => r.fetches key) l i r x hr

theorem discipline_install (pfx : String) (s : ProxyState) (i : Nat) (r : Request)
    (ops : List OpKind) (h : TicketDiscipline pfx s)
    (hr : s.requests[i]? = some r) (hp : r.progress = .arrived) (hm : r.method ≠ .other)
    (hk : objectKey pfx r.path ∉ s.tickets) :
    TicketDiscipline pfx
      { advance s i r (.fetching (objectKey pfx r.path)) ops with
        tickets := objectKey pfx r.path :: s.tickets } := by
  have hlt : i < s.requests.length := by
    rcases List.getElem?_eq_some_iff.1 hr with ⟨hlt, _⟩
    exact hlt
  have hnew : ({ advance s i r (.fetching (objectKey pfx r.path)) ops with
      tickets := objectKey pfx r.path :: s.tickets } : ProxyState).requests[i]?
      = some { r with progress := .fetching (objectKey pfx r.path) } := by
    simp [advance, List.getElem?_set, hlt]
  constructor
  · intro j x hj
    rcases advance_get s i r (.fetching (objectKey pfx r.path)) ops j x hj with
      ⟨_, hx⟩ | ⟨_, hx⟩
    · rw [hx]
      intro key' hkey'
      simp [Progress.key?] at hkey'
      subst hkey'
      exact ⟨hm, rfl⟩
    · exact h.wellKeyed j x hx
  · intro key'
    have hbal := holders_set s.requests key' i r
      { r with progress := .fetching (objectKey pfx r.path) } hr
    have hold' := h.holders key'
    have h1 : r.fetches key' = false := by simp [Request.fetches, hp]
    have h2 : ({ r with progress := .fetching (objectKey pfx r.path) } : Request).fetches key'
        = decide (objectKey pfx r.path = key') := by simp [Request.fetches]
    rw [h1, h2] at hbal
    simp only [advance, List.mem_cons]
    by_cases hkk : key' = objectKey pfx r.path
    · subst hkk
      simp only [hk, if_false] at hold'
      simp at hbal ⊢
      omega
    · have hne : ¬ objectKey pfx r.path = key' := fun e => hkk e.symm
      simp [hne] at hbal
      simp only [hkk, false_or]
      rw [hbal]
      exact hold'
  · intro j x key' hj hw
    rcases advance_get s i r (.fetching (objectKey pfx r.path)) ops j x hj with
      ⟨_, hx⟩ | ⟨_, hx⟩
    · rw [hx] at hw
      simp at hw
    · exact List.mem_cons_of_mem _ (h.waiters j x key' hx hw)
  · intro op hop
    simp only [advance, List.mem_append, List.mem_map] at hop
    rcases hop with hop | ⟨kind, _, hkind⟩
    · obtain ⟨x, hx, hne⟩ := h.callers op hop
      by_cases hi : op.task = i
      · rw [hi]
        exact ⟨_, hnew, by simp⟩
      · refine ⟨x, ?_, hne⟩
        simp only [advance, List.getElem?_set]
        rw [if_neg (fun e => hi e.symm)]
        exact hx
    · subst hkind
      exact ⟨_, hnew, by simp⟩

theorem discipline_complete (pfx : String) (s : ProxyState) (i : Nat) (r : Request)
    (key : ObjectKey) (res : FetchResult) (ops : List OpKind)
    (target : ObjectKey → Option Object) (h : TicketDiscipline pfx s)
    (hr : s.requests[i]? = some r) (hf : r.fetches key = true)
    (hkey : r.progress.key? = some key) :
    TicketDiscipline pfx (complete { s with target := target } i r key res ops) := by
  have hlt : i < s.requests.length := by
    rcases List.getElem?_eq_some_iff.1 hr with ⟨hlt, _⟩
    exact hlt
  have hold := h.wellKeyed i r hr key hkey
  have hnotwait : r.progress ≠ .waiting key := by
    intro e
    simp [Request.fetches, e] at hf
  have hnew : (complete { s with target := target } i r key res ops).requests[i]?
      = some { r with progress := .resolved key res } := by
    simp [complete, List.getElem?_set, hlt]
  constructor
  · intro j x hj
    rcases complete_get _ i r key res ops j x hj with ⟨_, hx⟩ | ⟨_, y, hy, hx⟩
    · rw [hx]
      intro key' hkey'
      simp [Progress.key?] at hkey'
      subst hkey'
      exact hold
    · have hyk := h.wellKeyed j y hy
      rcases wake_progress key res y with ⟨hw, hpw⟩ | ⟨_, hsame⟩
      · intro key' hkey'
        rw [hx, hpw] at hkey'
        simp [Progress.key?] at hkey'
        subst hkey'
        rw [hx, wake_method, wake_path]
        exact hyk key (by simp [hw, Progress.key?])
      · rw [hx, hsame]
        exact hyk
  · intro key'
    have hmap : (s.requests.map (wake key res))[i]? = some r := by
      rw [List.getElem?_map, hr]
      simp only [Option.map_some']
      rcases wake_progress key res r with ⟨hw, _⟩ | ⟨_, hsame⟩
      · exact absurd hw hnotwait
      · rw [hsame]
    have hbal := holders_set (s.requests.map (wake key res)) key' i r
      { r with progress := .resolved key res } hmap
    have hcm : (s.requests.map (wake key res)).countP (fun r => r.fetches key')
        = s.requests.countP (fun r => r.fetches key') := by
      rw [List.countP_map]
      congr 1
      funext y
      simp [wake_fetches]
    have h2 : ({ r with progress := .resolved key res } : Request).fetches key' = false := by
      simp [Request.fetches]
    rw [hcm, h.holders key', h2] at hbal
    simp only [complete, List.mem_filter]
    by_cases hkk : key' = key
    · subst hkk
      have hin : key' ∈ s.tickets := by
        by_contra hnot
        have h0 := h.holders key'
        simp only [hnot, if_false] at h0
        have := List.countP_eq_zero.1 h0 r (List.getElem?_mem hr)
        exact this hf
      rw [hf] at hbal
      simp [hin] at hbal ⊢
      exact hbal
    · have hrf : r.fetches key' = false := by
        cases hpr : r.progress <;> simp [Request.fetches, hpr, Progress.key?] at hf hkey ⊢
        · subst hf; exact fun e => hkk e.symm
        · subst hf; exact fun e => hkk e.symm
      rw [hrf] at hbal
      simp [hkk] at hbal ⊢
      exact hbal
  · intro j x key' hj hw
    rcases complete_get _ i r key res ops j x hj with ⟨_, hx⟩ | ⟨_, y, hy, hx⟩
    · rw [hx] at hw
      simp at hw
    · rcases wake_progress key res y with ⟨_, hpw⟩ | ⟨hnw, hsame⟩
      · rw [hx, hpw] at hw
        simp at hw
      · rw [hx, hsame] at hw
        have hin := h.waiters j y key' hy hw
        simp only [complete, List.mem_filter]
        refine ⟨hin, ?_⟩
        have : key' ≠ key := by
          intro e
          subst e
          exact hnw hw
        simpa using this
  · intro op hop
    simp only [complete, List.mem_append, List.mem_map] at hop
    rcases hop with hop | ⟨k, _, hk⟩
    · obtain ⟨x, hx, hne⟩ := h.callers op hop
      by_cases hi : op.task = i
      · rw [hi]
        exact ⟨_, hnew, by simp⟩
      · refine ⟨wake key res x, ?_, ?_⟩
        · simp only [complete, List.getElem?_set]
          rw [if_neg (fun e => hi e.symm), List.getElem?_map, hx]
          rfl
        · rcases wake_progress key res x with ⟨_, hpw⟩ | ⟨_, hsame⟩
          · rw [hpw]; simp
          · rw [hsame]; exact hne
    · subst hk
      exact ⟨_, hnew, by simp⟩

theorem discipline_step (G : Storage) (pfx : String) (s : ProxyState) (i : Nat)
    (h : TicketDiscipline pfx s) : TicketDiscipline pfx (step G pfx s i) := by
  rcases step_cases G pfx s i with hs | ⟨r, hr, hcase⟩
  · rw [hs]; exact h
  · have hwk := h.wellKeyed i r hr
    rcases hcase with ⟨hp, _, hs⟩ | ⟨hp, _, _, hs⟩ | ⟨obj, hp, _, _, _, hs⟩ |
      ⟨hp, hm, _, _, hk, hs⟩ | ⟨hp, hm, _, _, hk, hs⟩ | ⟨key, res, hp, hs⟩ |
      ⟨key, hp, _, hs⟩ | ⟨key, e, hp, _, _, hs⟩ | ⟨key, obj, hp, _, hs⟩ |
      ⟨key, obj, hp, _, hs⟩ | ⟨key, obj, hp, _, hs⟩
    · rw [hs]
      exact discipline_advance pfx s i r _ _ h hr
        (by intro key hkey; simp [Progress.key?] at hkey)
        (by intro k; simp [Request.fetches, hp]) (by intro key hk; simp at hk) (by simp)
    · rw [hs]
      exact discipline_advance pfx s i r _ _ h hr
        (by intro key hkey; simp [Progress.key?] at hkey)
        (by intro k; simp [Request.fetches, hp]) (by intro key hk; simp at hk) (by simp)
    · rw [hs]
      exact discipline_advance pfx s i r _ _ h hr
        (by intro key hkey; simp [Progress.key?] at hkey)
        (by intro k; simp [Request.fetches, hp]) (by intro key hk; simp at hk) (by simp)
    · rw [hs]
      exact discipline_advance pfx s i r _ _ h hr
        (by
          intro key hkey
          simp [Progress.key?] at hkey
          exact ⟨hm, hkey.symm⟩)
        (by intro k; simp [Request.fetches, hp])
        (by intro key' hk'; simp at hk'; subst hk'; exact hk) (by simp)
    · rw [hs]
      exact discipline_install pfx s i r _ h hr hp hm hk
    · rw [hs]
      exact discipline_advance pfx s i r _ _ h hr
        (by intro key hkey; simp [Progress.key?] at hkey)
        (by intro k; simp [Request.fetches, hp]) (by intro key hk; simp at hk) (by simp)
    · rw [hs]
      exact discipline_complete pfx s i r key _ _ s.target h hr
        (by simp [Request.fetches, hp]) (by simp [hp, Progress.key?])
    · rw [hs]
      exact discipline_complete pfx s i r key _ _ s.target h hr
        (by simp [Request.fetches, hp]) (by simp [hp, Progress.key?])
    · rw [hs]
      exact discipline_advance pfx s i r _ _ h hr
        (by
          intro key' hkey
          simp [Progress.key?] at hkey
          subst hkey
          exact hwk key (by simp [hp, Progress.key?]))
        (by intro k; simp [Request.fetches, hp]) (by intro key hk; simp at hk) (by simp)
    · rw [hs]
      exact discipline_complete pfx s i r key _ _ s.target h hr
        (by simp [Request.fetches, hp]) (by simp [hp, Progress.key?])
    · rw [hs]
      exact discipline_complete pfx s i r key _ _ _ h hr
        (by simp [Request.fetches, hp]) (by simp [hp, Progress.key?])

theorem discipline_act (G : Storage) (pfx : String) (s : ProxyState) (a : Action)
    (h : TicketDiscipline pfx s) : TicketDiscipline pfx (act G pfx s a) := by
  cases a with
  | arrive m path => exact discipline_arrive pfx s m path h
  | run i => exact discipline_step G pfx s i h

theorem discipline_exec (G : Storage) (pfx : String) (acts : List Action) :
    ∀ s, TicketDiscipline pfx s → TicketDiscipline pfx (exec G pfx s acts) := by
  induction acts with
  | nil => intro s h; exact h
  | cons a acts ih =>
    intro s h
    exact ih _ (discipline_act G pfx s a h)

theorem discipline_start (pfx : String) (target : ObjectKey → Option Object) :
    TicketDiscipline pfx (startState target) := by
  constructor <;> simp [startState]

theorem exec_append (G : Storage) (pfx : String) (s : ProxyState) (a b : List Action) :
    exec G pfx s (a ++ b) = exec G pfx (exec G pfx s a) b := by
  simp [exec, List.foldl_append]

theorem step_log (G : Storage) (pfx : String) (s : ProxyState) (i : Nat) :
    ∃ ops : List OpKind, (step G pfx s i).log = s.log ++ ops.map (Op.mk i) := by
  rcases step_cases G pfx s i with hs | ⟨r, hr, hcase⟩
  · exact ⟨[], by simp [hs]⟩
  · rcases hcase with ⟨_, _, hs⟩ | ⟨_, _, _, hs⟩ | ⟨obj, _, _, _, _, hs⟩ |
      ⟨_, _, _, _, _, hs⟩ | ⟨_, _, _, _, _, hs⟩ | ⟨key, res, _, hs⟩ |
      ⟨key, hp, _, hs⟩ | ⟨key, e, hp, _, _, hs⟩ | ⟨key, obj, _, _, hs⟩ |
      ⟨key, obj, hp, _, hs⟩ | ⟨key, obj, hp, _, hs⟩
    all_goals
      rw [hs]
      exact ⟨_, rfl⟩

theorem step_other (G : Storage) (pfx : String) (s : ProxyState) (i j : Nat) (r : Request)
    (hij : i ≠ j) (hr : s.requests[i]? = some r) :
    (step G pfx s j).requests[i]? = some r ∨
    ∃ rj key res, s.requests[j]? = some rj ∧ rj.fetches key = true ∧
      (step G pfx s j).requests[i]? = some (wake key res r) := by
  have hadv : ∀ (rj : Request) (p : Progress) (ops : List OpKind),
      (advance s j rj p ops).requests[i]? = some r := by
    intro rj p ops
    simp only [advance, List.getElem?_set]
    rw [if_neg (fun e => hij e.symm)]
    exact hr
  have hcomp : ∀ (rj : Request) (key : ObjectKey) (res : FetchResult) (ops : List OpKind)
      (target : ObjectKey → Option Object),
      (complete { s with target := target } j rj key res ops).requests[i]?
        = some (wake key res r) := by
    intro rj key res ops target
    simp only [complete, List.getElem?_set]
    rw [if_neg (fun e => hij e.symm), List.getElem?_map, hr]
    rfl
  rcases step_cases G pfx s j with hs | ⟨rj, hrj, hcase⟩
  · left; rw [hs]; exact hr
  · rcases hcase with ⟨_, _, hs⟩ | ⟨_, _, _, hs⟩ | ⟨obj, _, _, _, _, hs⟩ |
      ⟨_, _, _, _, _, hs⟩ | ⟨_, _, _, _, _, hs⟩ | ⟨key, res, _, hs⟩ |
      ⟨key, hp, _, hs⟩ | ⟨key, e, hp, _, _, hs⟩ | ⟨key, obj, _, _, hs⟩ |
      ⟨key, obj, hp, _, hs⟩ | ⟨key, obj, hp, _, hs⟩
    · left; rw [hs]; exact hadv _ _ _
    · left; rw [hs]; exact hadv _ _ _
    · left; rw [hs]; exact hadv _ _ _
    · left; rw [hs]; exact hadv _ _ _
    · left; rw [hs]; exact hadv rj (.fetching (objectKey pfx rj.path)) [.targetRead (objectKey pfx rj.path)]
    · left; rw [hs]; exact hadv _ _ _
    · right
      refine ⟨rj, key, .failure .NotFound, hrj, by simp [Request.fetches, hp], ?_⟩
      rw [hs]; exact hcomp _ _ _ _ s.target
    · right
      refine ⟨rj, key, .failure .UpstreamError, hrj, by simp [Request.fetches, hp], ?_⟩
      rw [hs]; exact hcomp _ _ _ _ s.target
    · left; rw [hs]; exact hadv _ _ _
    · right
      refine ⟨rj, key, .failure .StorageError, hrj, by simp [Request.fetches, hp], ?_⟩
      rw [hs]; exact hcomp _ _ _ _ s.target
    · right
      refine ⟨rj, key, .success obj, hrj, by simp [Request.fetches, hp], ?_⟩
      rw [hs]; exact hcomp _ _ _ _ _

theorem arrive_get (s : ProxyState) (m : Method) (path : String) (i : Nat) (r : Request)
    (hr : s.requests[i]? = some r) :
    (s.requests ++ [⟨m, path, .arrived⟩])[i]? = some r := by
  have hlt : i < s.requests.length := by
    rcases List.getElem?_eq_some_iff.1 hr with ⟨hlt, _⟩
    exact hlt
  simp only [List.getElem?_append, hlt, if_true]
  exact hr

theorem ownOps_other (G : Storage) (pfx : String) (s : ProxyState) (i j : Nat)
    (hij : i ≠ j) :
    (step G pfx s j).log.filter (fun op => op.task = i)
      = s.log.filter (fun op => op.task = i) := by
  obtain ⟨ops, hops⟩ := step_log G pfx s j
  rw [hops, List.filter_append]
  have : (ops.map (Op.mk j)).filter (fun op => decide (op.task = i)) = [] := by
    rw [List.filter_eq_nil_iff]
    intro op hop
    simp only [List.mem_map] at hop
    obtain ⟨k, _, hk⟩ := hop
    subst hk
    simpa using fun e => hij e.symm
  rw [this, List.append_nil]

theorem done_stable (G : Storage) (pfx : String) (acts : List Action) :
    ∀ (s : ProxyState) (i : Nat) (r : Request) (resp : Response),
      s.requests[i]? = some r → r.progress = .done resp →
      (exec G pfx s acts).requests[i]? = some r ∧
      (exec G pfx s acts).log.filter (fun op => op.task = i)
        = s.log.filter (fun op => op.task = i) := by
  induction acts with
  | nil => intro s i r resp hr _; exact ⟨hr, rfl⟩
  | cons a acts ih =>
    intro s i r resp hr hp
    have hstep : (act G pfx s a).requests[i]? = some r ∧
        (act G pfx s a).log.filter (fun op => op.task = i)
          = s.log.filter (fun op => op.task = i) := by
      cases a with
      | arrive m path => exact ⟨arrive_get s m path i r hr, rfl⟩
      | run j =>
        by_cases hij : i = j
        · subst hij
          have : step G pfx s i = s := by simp [step, hr, hp]
          simp only [act, this]
          exact ⟨hr, trivial⟩
        · refine ⟨?_, ownOps_other G pfx s i j hij⟩
          rcases step_other G pfx s i j r hij hr with h | ⟨rj, key, res, _, _, h⟩
          · exact h
          · rcases wake_progress key res r with ⟨hw, _⟩ | ⟨_, hsame⟩
            · rw [hp] at hw; cases hw
            · simp only [act]; rw [h, hsame]
    obtain ⟨h1, h2⟩ := ih (act G pfx s a) i r resp hstep.1 hp
    exact ⟨h1, h2.trans hstep.2⟩

/-! ## The request core: a key whose resolutions fail -/

theorem unfilled_advance (G : Storage) (pfx : String) (k : ObjectKey) (res0 : FetchResult)
    (s : ProxyState) (i : Nat) (r : Request) (p : Progress) (ops : List OpKind)
    (h : Unfilled G pfx k res0 s)
    (hwrite : ∀ obj, p = .writing k obj → G.sourceRead k = .ok obj)
    (hops : .targetWrite k ∉ ops)
    (hent : p.key? = some k → G.targetReadError k = none)
    (hres : ∀ res, p = .resolved k res → res = res0)
    (hdone : ∀ resp, p = .done resp → r.method ≠ .other → objectKey pfx r.path = k →
      (G.targetReadError k = none ∧ resp = resolvedResponse r.method res0) ∨
        (G.targetReadError k ≠ none ∧ resp = statusOnly 500)) :
    Unfilled G pfx k res0 (advance s i r p ops) := by
  constructor
  · exact h.absent
  · intro j x obj hj hx
    rcases advance_get s i r p ops j x hj with ⟨_, e⟩ | ⟨_, e⟩
    · rw [e] at hx; exact hwrite obj hx
    · exact h.fetched j x obj e hx
  · intro op hop hk
    simp only [advance, List.mem_append, List.mem_map] at hop
    rcases hop with hop | ⟨kind, hkind, e⟩
    · exact h.writes op hop hk
    · subst e
      simp only at hk
      subst hk
      exact absurd hkind hops
  · intro j x hj hx
    rcases advance_get s i r p ops j x hj with ⟨_, e⟩ | ⟨_, e⟩
    · rw [e] at hx; exact hent hx
    · exact h.entered j x e hx
  · intro j x res hj hx
    rcases advance_get s i r p ops j x hj with ⟨_, e⟩ | ⟨_, e⟩
    · rw [e] at hx; exact hres res hx
    · exact h.resolved j x res e hx
  · intro j x resp hj hm hkey hx
    rcases advance_get s i r p ops j x hj with ⟨_, e⟩ | ⟨_, e⟩
    · rw [e] at hx hm hkey ⊢
      exact hdone resp hx hm hkey
    · exact h.answered j x resp e hm hkey hx

theorem unfilled_complete (G : Storage) (pfx : String) (k : ObjectKey) (res0 : FetchResult)
    (s : ProxyState) (i : Nat) (r : Request) (key : ObjectKey) (res : FetchResult)
    (ops : List OpKind) (target : ObjectKey → Option Object)
    (h : Unfilled G pfx k res0 s)
    (htarget : target k = none)
    (hops : .targetWrite k ∈ ops → ∃ obj, G.sourceRead k = .ok obj)
    (hent : key = k → G.targetReadError k = none)
    (hres : key = k → res = res0) :
    Unfilled G pfx k res0 (complete { s with target := target } i r key res ops) := by
  constructor
  · exact htarget
  · intro j x obj hj hx
    rcases complete_get _ i r key res ops j x hj with ⟨_, e⟩ | ⟨_, y, hy, e⟩
    · rw [e] at hx; simp at hx
    · rcases wake_progress key res y with ⟨_, hpw⟩ | ⟨_, hsame⟩
      · rw [e, hpw] at hx; simp at hx
      · rw [e, hsame] at hx
        exact h.fetched j y obj hy hx
  · intro op hop hk
    simp only [complete, List.mem_append, List.mem_map] at hop
    rcases hop with hop | ⟨kind, hkind, e⟩
    · exact h.writes op hop hk
    · subst e
      simp only at hk
      subst hk
      exact hops hkind
  · intro j x hj hx
    rcases complete_get _ i r key res ops j x hj with ⟨_, e⟩ | ⟨_, y, hy, e⟩
    · rw [e] at hx
      simp [Progress.key?] at hx
      exact hent hx
    · rcases wake_progress key res y with ⟨_, hpw⟩ | ⟨_, hsame⟩
      · rw [e, hpw] at hx
        simp [Progress.key?] at hx
        exact hent hx
      · rw [e, hsame] at hx
        exact h.entered j y hy hx
  · intro j x res' hj hx
    rcases complete_get _ i r key res ops j x hj with ⟨_, e⟩ | ⟨_, y, hy, e⟩
    · rw [e] at hx
      simp at hx
      rw [← hx.2]
      exact hres hx.1
    · rcases wake_progress key res y with ⟨_, hpw⟩ | ⟨_, hsame⟩
      · rw [e, hpw] at hx
        simp at hx
        rw [← hx.2]
        exact hres hx.1
      · rw [e, hsame] at hx
        exact h.resolved j y res' hy hx
  · intro j x resp hj hm hkey hx
    rcases complete_get _ i r key res ops j x hj with ⟨_, e⟩ | ⟨_, y, hy, e⟩
    · rw [e] at hx; simp at hx
    · rcases wake_progress key res y with ⟨_, hpw⟩ | ⟨_, hsame⟩
      · rw [e, hpw] at hx; simp at hx
      · rw [e, hsame] at hx hm hkey ⊢
        exact h.answered j y resp hy hm hkey hx

theorem unfilled_step (G : Storage) (pfx : String) (k : ObjectKey) (res0 : FetchResult)
    (s : ProxyState) (i : Nat)
    (hcase : (G.sourceRead k = .error .notFound ∧ res0 = .failure .NotFound) ∨
      (∃ obj, G.sourceRead k = .ok obj ∧ G.targetWriteError k ≠ none ∧
        res0 = .failure .StorageError))
    (hd : TicketDiscipline pfx s) (h : Unfilled G pfx k res0 s) :
    Unfilled G pfx k res0 (step G pfx s i) := by
  rcases step_cases G pfx s i with hs | ⟨r, hr, hc⟩
  · rw [hs]; exact h
  · have hwk := hd.wellKeyed i r hr
    rcases hc with ⟨hp, hm, hs⟩ | ⟨hp, _, herr, hs⟩ | ⟨obj, hp, _, _, hhit, hs⟩ |
      ⟨hp, hm, hre, _, _, hs⟩ | ⟨hp, hm, hre, _, _, hs⟩ | ⟨key, res, hp, hs⟩ |
      ⟨key, hp, hsrc, hs⟩ | ⟨key, e, hp, hsrc, hne, hs⟩ | ⟨key, obj, hp, hsrc, hs⟩ |
      ⟨key, obj, hp, hw, hs⟩ | ⟨key, obj, hp, hw, hs⟩
    · rw [hs]
      exact unfilled_advance G pfx k res0 s i r _ _ h (by intro o e; simp at e) (by simp)
        (by intro e; simp [Progress.key?] at e)
        (by intro o e; simp at e) (by intro resp _ hm' _; exact absurd hm hm')
    · rw [hs]
      refine unfilled_advance G pfx k res0 s i r _ _ h (by intro o e; simp at e) (by simp)
        (by intro e; simp [Progress.key?] at e) (by intro o e; simp at e) ?_
      intro resp e _ hkey
      simp at e
      rw [hkey] at herr
      exact Or.inr ⟨herr, e.symm⟩
    · rw [hs]
      refine unfilled_advance G pfx k res0 s i r _ _ h (by intro o e; simp at e) (by simp)
        (by intro e; simp [Progress.key?] at e) (by intro o e; simp at e) ?_
      intro resp _ _ hkey
      rw [hkey, h.absent] at hhit
      cases hhit
    · rw [hs]
      refine unfilled_advance G pfx k res0 s i r _ _ h (by intro o e; simp at e) (by simp)
        ?_ (by intro o e; simp at e) (by intro resp e; simp at e)
      intro e
      simp [Progress.key?] at e
      rw [e] at hre
      exact hre
    · rw [hs]
      have := unfilled_advance G pfx k res0 s i r (.fetching (objectKey pfx r.path))
        [.targetRead (objectKey pfx r.path)] h
        (by intro o e; simp at e) (by simp)
        (by
          intro e
          simp [Progress.key?] at e
          rw [e] at hre
          exact hre)
        (by intro o e; simp at e) (by intro resp e; simp at e)
      exact ⟨this.absent, this.fetched, this.writes, this.entered, this.resolved,
        this.answered⟩
    · rw [hs]
      refine unfilled_advance G pfx k res0 s i r _ _ h (by intro o e; simp at e) (by simp)
        (by intro e; simp [Progress.key?] at e) (by intro o e; simp at e) ?_
      intro resp e _ hkey
      simp at e
      have hkk := (hwk key (by simp [hp, Progress.key?])).2
      rw [← hkk] at hkey
      subst hkey
      refine Or.inl ⟨h.entered i r hr (by simp [hp, Progress.key?]), ?_⟩
      rw [← e, h.resolved i r res hr hp]
    · rw [hs]
      refine unfilled_complete G pfx k res0 s i r key _ _ s.target h h.absent (by simp) ?_ ?_
      · intro hk
        subst hk
        exact h.entered i r hr (by simp [hp, Progress.key?])
      · intro hk
        subst hk
        rcases hcase with ⟨_, e⟩ | ⟨obj, e, _, _⟩
        · exact e.symm
        · rw [hsrc] at e; cases e
    · rw [hs]
      refine unfilled_complete G pfx k res0 s i r key _ _ s.target h h.absent (by simp) ?_ ?_
      · intro hk
        subst hk
        exact h.entered i r hr (by simp [hp, Progress.key?])
      · intro hk
        subst hk
        rcases hcase with ⟨e, _⟩ | ⟨obj, e, _, _⟩
        · rw [hsrc] at e
          simp at e
          exact absurd e hne
        · rw [hsrc] at e; cases e
    · rw [hs]
      refine unfilled_advance G pfx k res0 s i r _ _ h ?_ (by simp) ?_
        (by intro o e; simp at e) (by intro resp e; simp at e)
      · intro o e
        simp at e
        rw [← e.1, ← e.2]
        exact hsrc
      · intro e
        simp [Progress.key?] at e
        subst e
        exact h.entered i r hr (by simp [hp, Progress.key?])
    · rw [hs]
      refine unfilled_complete G pfx k res0 s i r key _ _ s.target h h.absent ?_ ?_ ?_
      · intro hmem
        simp at hmem
        subst hmem
        exact ⟨obj, h.fetched i r obj hr hp⟩
      · intro hk
        subst hk
        exact h.entered i r hr (by simp [hp, Progress.key?])
      · intro hk
        subst hk
        have hf := h.fetched i r obj hr hp
        rcases hcase with ⟨e, _⟩ | ⟨_, _, _, e⟩
        · rw [hf] at e; cases e
        · exact e.symm
    · rw [hs]
      have hkk : key ≠ k := by
        intro hk
        subst hk
        have hf := h.fetched i r obj hr hp
        rcases hcase with ⟨e, _⟩ | ⟨_, _, e, _⟩
        · rw [hf] at e; cases e
        · exact e hw
      refine unfilled_complete G pfx k res0 s i r key _ _ _ h ?_ ?_ ?_ ?_
      · show (if k = key then some obj else s.target k) = none
        rw [if_neg (fun e => hkk e.symm)]
        exact h.absent
      · intro hmem
        simp at hmem
        exact absurd hmem.symm hkk
      · intro hk
        exact absurd hk hkk
      · intro hk
        exact absurd hk hkk

theorem unfilled_exec (G : Storage) (pfx : String) (k : ObjectKey) (res0 : FetchResult)
    (hcase : (G.sourceRead k = .error .notFound ∧ res0 = .failure .NotFound) ∨
      (∃ obj, G.sourceRead k = .ok obj ∧ G.targetWriteError k ≠ none ∧
        res0 = .failure .StorageError))
    (acts : List Action) :
    ∀ s, TicketDiscipline pfx s → Unfilled G pfx k res0 s →
      Unfilled G pfx k res0 (exec G pfx s acts) := by
  induction acts with
  | nil => intro s _ h; exact h
  | cons a acts ih =>
    intro s hd h
    refine ih _ (discipline_act G pfx s a hd) ?_
    cases a with
    | arrive m path =>
      constructor
      · exact h.absent
      · intro j r obj hj hp
        simp only [act, List.getElem?_append] at hj
        split at hj
        · exact h.fetched j r obj hj hp
        · have := List.getElem?_mem hj
          simp at this
          subst this
          simp at hp
      · exact h.writes
      · intro j r hj hp
        simp only [act, List.getElem?_append] at hj
        split at hj
        · exact h.entered j r hj hp
        · have := List.getElem?_mem hj
          simp at this
          subst this
          simp [Progress.key?] at hp
      · intro j r res hj hp
        simp only [act, List.getElem?_append] at hj
        split at hj
        · exact h.resolved j r res hj hp
        · have := List.getElem?_mem hj
          simp at this
          subst this
          simp at hp
      · intro j r resp hj hm hkey hp
        simp only [act, List.getElem?_append] at hj
        split at hj
        · exact h.answered j r resp hj hm hkey hp
        · have := List.getElem?_mem hj
          simp at this
          subst this
          simp at hp
    | run i => exact unfilled_step G pfx k res0 s i hcase hd h

theorem unfilled_start (G : Storage) (pfx : String) (k : ObjectKey) (res0 : FetchResult)
    (target : ObjectKey → Option Object) (h : target k = none) :
    Unfilled G pfx k res0 (startState target) := by
  constructor <;> simp [startState, h]

/-! ## The request core: every request can be brought to its response -/

theorem sum_set_balance {α : Type} (f : α → Nat) :
    ∀ (l : List α) (i : Nat) (r x : α), l[i]? = some r →
      ((l.set i x).map f).sum + f r = (l.map f).sum + f x := by
  intro l
  induction l with
  | nil => intro i r x h; simp at h
  | cons a l ih =>
    intro i r x h
    cases i with
    | zero =>
      simp at h
      subst h
      simp only [List.set_cons_zero, List.map_cons, List.sum_cons]
      omega
    | succ i =>
      simp at h
      have := ih i r x h
      simp only [List.set_cons_succ, List.map_cons, List.sum_cons]
      omega

theorem wake_rank (key : ObjectKey) (res : FetchResult) (y : Request) :
    (wake key res y).progress.rank ≤ y.progress.rank := by
  rcases wake_progress key res y with ⟨hw, hpw⟩ | ⟨_, hsame⟩
  · rw [hpw, hw]; simp [Progress.rank]
  · rw [hsame]

theorem sum_map_wake (key : ObjectKey) (res : FetchResult) (l : List Request) :
    ((l.map (wake key res)).map (fun r => r.progress.rank)).sum
      ≤ (l.map (fun r => r.progress.rank)).sum := by
  induction l with
  | nil => simp
  | cons a l ih =>
    simp only [List.map_cons, List.sum_cons]
    have := wake_rank key res a
    omega

theorem rank_set (l : List Request) (i : Nat) (r x : Request) (hr : l[i]? = some r) :
    ((l.set i x).map (fun r => r.progress.rank)).sum + r.progress.rank
      = (l.map (fun r => r.progress.rank)).sum + x.progress.rank :=
  sum_set_balance (fun r => r.progress.rank) l i r x hr

theorem pending_advance (s : ProxyState) (i : Nat) (r : Request) (p : Progress)
    (ops : List OpKind) (tickets : List ObjectKey)
    (hr : s.requests[i]? = some r) (hlt : p.rank < r.progress.rank) :
    pending { advance s i r p ops with tickets := tickets } < pending s := by
  have := rank_set s.requests i r { r with progress := p } hr
  simp only [pending, advance]
  simp only at this
  omega

theorem pending_complete (s : ProxyState) (i : Nat) (r : Request) (key : ObjectKey)
    (res : FetchResult) (ops : List OpKind) (target : ObjectKey → Option Object)
    (hr : s.requests[i]? = some r) (hf : r.fetches key = true) :
    pending (complete { s with target := target } i r key res ops) < pending s := by
  have hnotwait : r.progress ≠ .waiting key := by
    intro e
    simp [Request.fetches, e] at hf
  have hmap : (s.requests.map (wake key res))[i]? = some r := by
    rw [List.getElem?_map, hr]
    simp only [Option.map_some']
    rcases wake_progress key res r with ⟨hw, _⟩ | ⟨_, hsame⟩
    · exact absurd hw hnotwait
    · rw [hsame]
  have hbal := rank_set (s.requests.map (wake key res)) i r
    { r with progress := .resolved key res } hmap
  have hle := sum_map_wake key res s.requests
  have hrank : 3 ≤ r.progress.rank := by
    cases hp : r.progress <;> simp [Request.fetches, hp] at hf <;> simp [Progress.rank]
  have hone : ({ r with progress := .resolved key res } : Request).progress.rank = 1 := rfl
  rw [hone] at hbal
  simp only [pending, complete]
  omega

theorem pending_step (G : Storage) (pfx : String) (s : ProxyState) (i : Nat) (r : Request)
    (hr : s.requests[i]? = some r)
    (hrun : ∀ key, r.progress ≠ .waiting key) (hnot : ∀ resp, r.progress ≠ .done resp) :
    pending (step G pfx s i) < pending s := by
  rcases step_run G pfx s i r hr with ⟨_, ⟨key, hw⟩ | ⟨resp, hdn⟩⟩ | hc
  · exact absurd hw (hrun key)
  · exact absurd hdn (hnot resp)
  · rcases hc with ⟨hp, _, hs⟩ | ⟨hp, _, _, hs⟩ | ⟨obj, hp, _, _, _, hs⟩ |
      ⟨hp, _, _, _, _, hs⟩ | ⟨hp, _, _, _, _, hs⟩ | ⟨key, res, hp, hs⟩ |
      ⟨key, hp, _, hs⟩ | ⟨key, e, hp, _, _, hs⟩ | ⟨key, obj, hp, _, hs⟩ |
      ⟨key, obj, hp, _, hs⟩ | ⟨key, obj, hp, _, hs⟩
    · rw [hs]; exact pending_advance s i r _ _ s.tickets hr (by simp [hp, Progress.rank])
    · rw [hs]; exact pending_advance s i r _ _ s.tickets hr (by simp [hp, Progress.rank])
    · rw [hs]; exact pending_advance s i r _ _ s.tickets hr (by simp [hp, Progress.rank])
    · rw [hs]; exact pending_advance s i r _ _ s.tickets hr (by simp [hp, Progress.rank])
    · rw [hs]; exact pending_advance s i r _ _ _ hr (by simp [hp, Progress.rank])
    · rw [hs]; exact pending_advance s i r _ _ s.tickets hr (by simp [hp, Progress.rank])
    · rw [hs]; exact pending_complete s i r key _ _ s.target hr (by simp [Request.fetches, hp])
    · rw [hs]; exact pending_complete s i r key _ _ s.target hr (by simp [Request.fetches, hp])
    · rw [hs]; exact pending_advance s i r _ _ s.tickets hr (by simp [hp, Progress.rank])
    · rw [hs]; exact pending_complete s i r key _ _ s.target hr (by simp [Request.fetches, hp])
    · rw [hs]; exact pending_complete s i r key _ _ _ hr (by simp [Request.fetches, hp])

theorem exists_runnable (pfx : String) (s : ProxyState) (hd : TicketDiscipline pfx s)
    (h : ∃ r ∈ s.requests, ∀ resp, r.progress ≠ .done resp) :
    ∃ (i : Nat) (r : Request), s.requests[i]? = some r ∧
      (∀ key, r.progress ≠ .waiting key) ∧
      ∀ resp, r.progress ≠ .done resp := by
  obtain ⟨r, hmem, hnot⟩ := h
  obtain ⟨j, hj⟩ := List.mem_iff_getElem?.1 hmem
  by_cases hw : ∃ key, r.progress = .waiting key
  · obtain ⟨key, hkey⟩ := hw
    have hin := hd.waiters j r key hj hkey
    have hcount := hd.holders key
    simp only [hin, if_true] at hcount
    have hpos : 0 < s.requests.countP (fun r => r.fetches key) := by omega
    obtain ⟨f, hfmem, hf⟩ := List.countP_pos_iff.1 hpos
    obtain ⟨i, hi⟩ := List.mem_iff_getElem?.1 hfmem
    refine ⟨i, f, hi, ?_, ?_⟩
    · intro key' e
      simp [Request.fetches, e] at hf
    · intro resp e
      simp [Request.fetches, e] at hf
  · exact ⟨j, r, hj, fun key e => hw ⟨key, e⟩, hnot⟩

theorem drain (G : Storage) (pfx : String) :
    ∀ (n : Nat) (s : ProxyState), TicketDiscipline pfx s → pending s ≤ n →
      ∃ acts : List Action, ∀ r ∈ (exec G pfx s acts).requests,
        ∃ resp, r.progress = .done resp := by
  intro n
  induction n with
  | zero =>
    intro s _ hp
    refine ⟨[], ?_⟩
    intro r hr
    have hz : (s.requests.map (fun r => r.progress.rank)).sum = 0 := by
      simp only [pending] at hp
      omega
    have := List.sum_eq_zero_iff.1 hz (r.progress.rank) (List.mem_map.2 ⟨r, hr, rfl⟩)
    cases hpr : r.progress <;> simp [hpr, Progress.rank] at this
    exact ⟨_, rfl⟩
  | succ n ih =>
    intro s hd hp
    by_cases hall : ∀ r ∈ s.requests, ∃ resp, r.progress = .done resp
    · exact ⟨[], hall⟩
    · have hex : ∃ r ∈ s.requests, ∀ resp, r.progress ≠ .done resp := by
        by_contra hcon
        apply hall
        intro r hr
        by_contra hno
        exact hcon ⟨r, hr, fun resp e => hno ⟨resp, e⟩⟩
      obtain ⟨i, r, hi, hrun, hnot⟩ := exists_runnable pfx s hd hex
      have hlt := pending_step G pfx s i r hi hrun hnot
      obtain ⟨acts, hacts⟩ := ih (step G pfx s i) (discipline_step G pfx s i hd) (by omega)
      exact ⟨.run i :: acts, hacts⟩

theorem advance_self (s : ProxyState) (i : Nat) (r : Request) (p : Progress)
    (ops : List OpKind) (tickets : List ObjectKey) (hlt : i < s.requests.length) :
    ({ advance s i r p ops with tickets := tickets } : ProxyState).requests[i]?
      = some { r with progress := p } := by
  simp [advance, List.getElem?_set, hlt]

theorem complete_self (s : ProxyState) (i : Nat) (r : Request) (key : ObjectKey)
    (res : FetchResult) (ops : List OpKind) (hlt : i < s.requests.length) :
    (complete s i r key res ops).requests[i]? = some { r with progress := .resolved key res } := by
  simp [complete, List.getElem?_set, hlt]

theorem fresh_failed_resolution (G : Storage) (pfx : String) (k : ObjectKey) (obj : Object)
    (s : ProxyState) (m : Method) (path : String)
    (hsource : G.sourceRead k = .ok obj) (hwrite : G.targetWriteError k ≠ none)
    (hreach : G.targetReadError k = none) (habsent : s.target k = none)
    (hk : k ∉ s.tickets) (hm : m ≠ .other) (hkey : objectKey pfx path = k) :
    (exec G pfx (exec G pfx s [.arrive m path])
        (List.replicate 4 (.run s.requests.length))).log
      = s.log ++ [⟨s.requests.length, .targetRead k⟩, ⟨s.requests.length, .sourceRead k⟩,
          ⟨s.requests.length, .targetWrite k⟩,
          ⟨s.requests.length, .metric (.error .StorageError) k⟩] ∧
    (exec G pfx (exec G pfx s [.arrive m path])
        (List.replicate 4 (.run s.requests.length))).requests[s.requests.length]?
      = some ⟨m, path, .done (statusOnly 502)⟩ ∧
    k ∉ (exec G pfx (exec G pfx s [.arrive m path])
        (List.replicate 4 (.run s.requests.length))).tickets := by
  obtain ⟨e, he⟩ : ∃ e, G.targetWriteError k = some e := by
    cases hw : G.targetWriteError k with
    | none => exact absurd hw hwrite
    | some e => exact ⟨e, rfl⟩
  -- the arrival
  let s1 : ProxyState := { s with requests := s.requests ++ [⟨m, path, .arrived⟩] }
  have h1 : s1.requests[s.requests.length]? = some ⟨m, path, .arrived⟩ := by
    simp [s1]
  have hlen1 : s.requests.length < s1.requests.length := by simp [s1]
  -- the check on the target misses and, with no ticket, the request installs one
  let s3 : ProxyState :=
    { advance s1 s.requests.length ⟨m, path, .arrived⟩ (.fetching k) [.targetRead k] with
      tickets := k :: s1.tickets }
  have e3 : step G pfx s1 s.requests.length = s3 := by
    have ht : s1.target k = none := habsent
    have hk1 : k ∉ s1.tickets := hk
    cases m <;>
      simp [step, h1, routerStep, enterResolve, hkey, hreach, ht, habsent, hk1, s3] at hm ⊢
  have h3 : s3.requests[s.requests.length]? = some ⟨m, path, .fetching k⟩ :=
    advance_self s1 _ _ _ _ _ hlen1
  have hlen3 : s.requests.length < s3.requests.length := by
    simp [s3, advance, s1]
  -- the source read
  let s4 := advance s3 s.requests.length ⟨m, path, .fetching k⟩ (.writing k obj)
    [.sourceRead k]
  have e4 : step G pfx s3 s.requests.length = s4 := by
    simp [step, h3, resolveStep, hsource, s4]
  have h4 : s4.requests[s.requests.length]? = some ⟨m, path, .writing k obj⟩ :=
    advance_self s3 _ _ _ _ s3.tickets hlen3
  have hlen4 : s.requests.length < s4.requests.length := by
    simp [s4, advance, s3, s1]
  -- the target write fails
  let s5 := complete s4 s.requests.length ⟨m, path, .writing k obj⟩ k
    (.failure .StorageError) [.targetWrite k]
  have e5 : step G pfx s4 s.requests.length = s5 := by
    simp [step, h4, resolveStep, he, s5]
  have h5 : s5.requests[s.requests.length]?
      = some ⟨m, path, .resolved k (.failure .StorageError)⟩ :=
    complete_self s4 _ _ _ _ _ hlen4
  -- the response
  let s6 := advance s5 s.requests.length ⟨m, path, .resolved k (.failure .StorageError)⟩
    (.done (statusOnly 502)) [.metric (.error .StorageError) k]
  have e6 : step G pfx s5 s.requests.length = s6 := by
    simp [step, h5, routerStep, resolvedResponse, resolvedMetric, s6]
  have hlen5 : s.requests.length < s5.requests.length := by
    simp [s5, complete, s4, advance, s3, s1]
  have hrun : exec G pfx (exec G pfx s [.arrive m path])
      (List.replicate 4 (.run s.requests.length)) = s6 := by
    simp only [exec, List.replicate, List.foldl, act]
    rw [show ({ s with requests := s.requests ++ [⟨m, path, .arrived⟩] } : ProxyState) = s1
      from rfl, e3, e4, e5, e6]
  rw [hrun]
  refine ⟨?_, advance_self s5 _ _ _ _ s5.tickets hlen5, ?_⟩
  · simp [s6, advance, s5, complete, s4, s3, s1]
  · simp [s6, advance, s5, complete, s4, s3, s1]

theorem fetcher_unique (pfx : String) (s : ProxyState) (hd : TicketDiscipline pfx s)
    (key : ObjectKey) (i j : Nat) (a b : Request)
    (hi : s.requests[i]? = some a) (hj : s.requests[j]? = some b)
    (ha : a.fetches key = true) (hb : b.fetches key = true) : i = j := by
  have hc := hd.holders key
  have hle : s.requests.countP (fun r => r.fetches key) ≤ 1 := by
    rw [hc]; split <;> omega
  exact countP_le_one_unique (fun r => r.fetches key) s.requests i j a b hle hi hj ha hb

/-! ## The request core: a key that is filled once -/

theorem ticket_has_holder (pfx : String) (s : ProxyState) (hd : TicketDiscipline pfx s)
    (key : ObjectKey) (hk : key ∈ s.tickets) :
    ∃ (i : Nat) (r : Request), s.requests[i]? = some r ∧ r.fetches key = true := by
  have hcount := hd.holders key
  simp only [hk, if_true] at hcount
  have hpos : 0 < s.requests.countP (fun r => r.fetches key) := by omega
  obtain ⟨f, hfmem, hf⟩ := List.countP_pos_iff.1 hpos
  obtain ⟨i, hi⟩ := List.mem_iff_getElem?.1 hfmem
  exact ⟨i, f, hi, hf⟩

theorem holdersMiss_advance (s : ProxyState) (i : Nat) (r : Request) (p : Progress)
    (ops : List OpKind) (tickets : List ObjectKey) (h : HoldersMiss s)
    (hp : ∀ key, ({ r with progress := p } : Request).fetches key = true →
      s.target key = none) :
    HoldersMiss { advance s i r p ops with tickets := tickets } := by
  intro j x key hj hx
  rcases advance_get s i r p ops j x hj with ⟨_, e⟩ | ⟨_, e⟩
  · rw [e] at hx
    exact hp key hx
  · exact h j x key e hx

theorem holdersMiss_complete (pfx : String) (s : ProxyState) (i : Nat) (r : Request)
    (key : ObjectKey) (res : FetchResult) (ops : List OpKind)
    (target : ObjectKey → Option Object) (hd : TicketDiscipline pfx s) (h : HoldersMiss s)
    (hr : s.requests[i]? = some r) (hf : r.fetches key = true)
    (htarget : ∀ k, k ≠ key → target k = s.target k) :
    HoldersMiss (complete { s with target := target } i r key res ops) := by
  intro j x key' hj hx
  show target key' = none
  rcases complete_get _ i r key res ops j x hj with ⟨_, e⟩ | ⟨hji, y, hy, e⟩
  · rw [e] at hx
    simp [Request.fetches] at hx
  · rcases wake_progress key res y with ⟨_, hpw⟩ | ⟨hnw, _⟩
    · rw [e] at hx
      simp [Request.fetches, hpw] at hx
    · have hxy : x = y := by rw [e]; simp [wake, hnw]
      subst hxy
      have hne : key' ≠ key := by
        intro e'
        subst e'
        exact hji (fetcher_unique pfx s hd key' j i x r hy hr hx hf)
      rw [htarget key' hne]
      exact h j x key' hy hx

theorem holdersMiss_step (G : Storage) (pfx : String) (s : ProxyState) (i : Nat)
    (hd : TicketDiscipline pfx s) (h : HoldersMiss s) : HoldersMiss (step G pfx s i) := by
  rcases step_cases G pfx s i with hs | ⟨r, hr, hc⟩
  · rw [hs]; exact h
  · rcases hc with ⟨hp, _, hs⟩ | ⟨hp, _, _, hs⟩ | ⟨o, hp, _, _, _, hs⟩ |
      ⟨hp, _, _, _, _, hs⟩ | ⟨hp, _, _, hmiss, _, hs⟩ | ⟨key, res, hp, hs⟩ |
      ⟨key, hp, _, hs⟩ | ⟨key, e, hp, _, _, hs⟩ | ⟨key, o, hp, _, hs⟩ |
      ⟨key, o, hp, _, hs⟩ | ⟨key, o, hp, _, hs⟩
    · rw [hs]
      exact holdersMiss_advance s i r _ _ s.tickets h
        (by intro key e; simp [Request.fetches] at e)
    · rw [hs]
      exact holdersMiss_advance s i r _ _ s.tickets h
        (by intro key e; simp [Request.fetches] at e)
    · rw [hs]
      exact holdersMiss_advance s i r _ _ s.tickets h
        (by intro key e; simp [Request.fetches] at e)
    · rw [hs]
      exact holdersMiss_advance s i r _ _ s.tickets h
        (by intro key e; simp [Request.fetches] at e)
    · rw [hs]
      refine holdersMiss_advance s i r _ _ _ h ?_
      intro key e
      simp [Request.fetches] at e
      rw [← e]
      exact hmiss
    · rw [hs]
      exact holdersMiss_advance s i r _ _ s.tickets h
        (by intro key e; simp [Request.fetches] at e)
    · rw [hs]
      exact holdersMiss_complete pfx s i r key _ _ s.target hd h hr
        (by simp [Request.fetches, hp]) (fun _ _ => rfl)
    · rw [hs]
      exact holdersMiss_complete pfx s i r key _ _ s.target hd h hr
        (by simp [Request.fetches, hp]) (fun _ _ => rfl)
    · rw [hs]
      refine holdersMiss_advance s i r _ _ s.tickets h ?_
      intro key' e
      simp [Request.fetches] at e
      rw [← e]
      exact h i r key hr (by simp [Request.fetches, hp])
    · rw [hs]
      exact holdersMiss_complete pfx s i r key _ _ s.target hd h hr
        (by simp [Request.fetches, hp]) (fun _ _ => rfl)
    · rw [hs]
      refine holdersMiss_complete pfx s i r key _ _ _ hd h hr
        (by simp [Request.fetches, hp]) ?_
      intro k hk
      show (if k = key then some o else s.target k) = s.target k
      rw [if_neg hk]

theorem target_stays_step (G : Storage) (pfx : String) (s : ProxyState) (i : Nat)
    (k : ObjectKey) (obj : Object) (h : HoldersMiss s) (ht : s.target k = some obj) :
    (step G pfx s i).target k = some obj := by
  rcases step_cases G pfx s i with hs | ⟨r, hr, hc⟩
  · rw [hs]; exact ht
  · rcases hc with ⟨_, _, hs⟩ | ⟨_, _, _, hs⟩ | ⟨o, _, _, _, _, hs⟩ |
      ⟨_, _, _, _, _, hs⟩ | ⟨_, _, _, _, _, hs⟩ | ⟨key, res, _, hs⟩ |
      ⟨key, _, _, hs⟩ | ⟨key, e, _, _, _, hs⟩ | ⟨key, o, _, _, hs⟩ |
      ⟨key, o, _, _, hs⟩ | ⟨key, o, hp, _, hs⟩
    · rw [hs]; exact ht
    · rw [hs]; exact ht
    · rw [hs]; exact ht
    · rw [hs]; exact ht
    · rw [hs]; exact ht
    · rw [hs]; exact ht
    · rw [hs]; exact ht
    · rw [hs]; exact ht
    · rw [hs]; exact ht
    · rw [hs]; exact ht
    · rw [hs]
      show (if k = key then some o else s.target k) = some obj
      have hne : k ≠ key := by
        intro e
        subst e
        rw [h i r k hr (by simp [Request.fetches, hp])] at ht
        cases ht
      rw [if_neg hne]
      exact ht

theorem target_stays (G : Storage) (pfx : String) (k : ObjectKey) (obj : Object)
    (acts : List Action) :
    ∀ s, TicketDiscipline pfx s → HoldersMiss s → s.target k = some obj →
      (exec G pfx s acts).target k = some obj := by
  induction acts with
  | nil => intro s _ _ ht; exact ht
  | cons a acts ih =>
    intro s hd h ht
    cases a with
    | arrive m path =>
      refine ih _ (discipline_act G pfx s (.arrive m path) hd) ?_ ht
      intro j x key hj hx
      simp only [act, List.getElem?_append] at hj
      split at hj
      · exact h j x key hj hx
      · have := List.getElem?_mem hj
        simp at this
        subst this
        simp [Request.fetches] at hx
    | run i =>
      exact ih _ (discipline_act G pfx s (.run i) hd) (holdersMiss_step G pfx s i hd h)
        (target_stays_step G pfx s i k obj h ht)

theorem holdersMiss_exec (G : Storage) (pfx : String) (acts : List Action) :
    ∀ s, TicketDiscipline pfx s → HoldersMiss s → HoldersMiss (exec G pfx s acts) := by
  induction acts with
  | nil => intro s _ h; exact h
  | cons a acts ih =>
    intro s hd h
    cases a with
    | arrive m path =>
      refine ih _ (discipline_act G pfx s (.arrive m path) hd) ?_
      intro j x key hj hx
      simp only [act, List.getElem?_append] at hj
      split at hj
      · exact h j x key hj hx
      · have := List.getElem?_mem hj
        simp at this
        subst this
        simp [Request.fetches] at hx
    | run i =>
      exact ih _ (discipline_act G pfx s (.run i) hd) (holdersMiss_step G pfx s i hd h)

theorem holdersMiss_start (target : ObjectKey → Option Object) :
    HoldersMiss (startState target) := by
  intro j x key hj _
  simp [startState] at hj

/-! ## The request core: the claims -/

/-- C6, as amended (spec-modelled): in any run from startup, take a `GET` that
performs its check on the target at a moment the bucket holds an object at the
request's key `k`. Over the whole run, however it continues, none of the calls
the request makes is a source read or a target write, and the step leaves the
target bucket and the ticket table as they were. When the target gateway
answers the existence check for `k`, the request is answered 200 with the stored
object by that one step, and its calls are the target read and the hit metric;
when the gateway fails the check, the request is answered a bare 500, and its
calls are the target read and the error metric. And the bucket holds that
object at `k` in every later state, whatever the requests do. -/
theorem hit_touches_nothing (G : Storage) (pfx : String)
    (target : ObjectKey → Option Object) (before after : List Action)
    (i : Nat) (r : Request) (k : ObjectKey) (obj : Object)
    (hr : (exec G pfx (startState target) before).requests[i]? = some r)
    (harrived : r.progress = .arrived) (hget : r.method = .GET)
    (hkey : objectKey pfx r.path = k)
    (hhit : (exec G pfx (startState target) before).target k = some obj) :
    (∀ op ∈ (exec G pfx (startState target) (before ++ .run i :: after)).log.filter
        (fun op => op.task = i),
      ∀ key, op.kind ≠ .sourceRead key ∧ op.kind ≠ .targetWrite key) ∧
    (step G pfx (exec G pfx (startState target) before) i).target
      = (exec G pfx (startState target) before).target ∧
    (step G pfx (exec G pfx (startState target) before) i).tickets
      = (exec G pfx (startState target) before).tickets ∧
    (G.targetReadError k = none →
      (exec G pfx (startState target) (before ++ .run i :: after)).requests[i]?
        = some ⟨r.method, r.path,
            .done ⟨200, some obj.contentType, some obj.size, some obj.body⟩⟩ ∧
      (exec G pfx (startState target) (before ++ .run i :: after)).log.filter
          (fun op => op.task = i)
        = [⟨i, .targetRead k⟩, ⟨i, .metric .hit k⟩]) ∧
    (G.targetReadError k ≠ none →
      (exec G pfx (startState target) (before ++ .run i :: after)).requests[i]?
        = some ⟨r.method, r.path, .done (statusOnly 500)⟩ ∧
      (exec G pfx (startState target) (before ++ .run i :: after)).log.filter
          (fun op => op.task = i)
        = [⟨i, .targetRead k⟩, ⟨i, .metric (.error .InternalError) k⟩]) ∧
    (∀ more : List Action,
      (exec G pfx (startState target) (before ++ more)).target k = some obj) := by
  have hdisc := discipline_exec G pfx before _ (discipline_start pfx target)
  have hstay : ∀ more : List Action,
      (exec G pfx (startState target) (before ++ more)).target k = some obj := by
    intro more
    rw [exec_append]
    exact target_stays G pfx k obj more _ hdisc
      (holdersMiss_exec G pfx before _ (discipline_start pfx target)
        (holdersMiss_start target)) hhit
  rw [exec_append]
  generalize exec G pfx (startState target) before = s at hr hhit hdisc ⊢
  have hlt : i < s.requests.length := by
    rcases List.getElem?_eq_some_iff.1 hr with ⟨hlt, _⟩
    exact hlt
  have hnone : s.log.filter (fun op => op.task = i) = [] := by
    rw [List.filter_eq_nil_iff]
    intro op hop htask
    obtain ⟨x, hx, hne⟩ := hdisc.callers op hop
    have htask' : op.task = i := by simpa using htask
    rw [htask', hr] at hx
    simp at hx
    subst hx
    exact hne harrived
  have hexec : exec G pfx s (.run i :: after) = exec G pfx (step G pfx s i) after := rfl
  rw [hexec]
  have hfinal : ∀ (resp : Response) (ops : List OpKind),
      step G pfx s i = advance s i r (.done resp) ops →
      (exec G pfx (step G pfx s i) after).requests[i]? = some ⟨r.method, r.path, .done resp⟩ ∧
      (exec G pfx (step G pfx s i) after).log.filter (fun op => op.task = i)
        = ops.map (Op.mk i) := by
    intro resp ops hstep
    have hnew : (step G pfx s i).requests[i]? = some { r with progress := .done resp } := by
      rw [hstep]
      simp [advance, List.getElem?_set, hlt]
    obtain ⟨h1, h2⟩ := done_stable G pfx after (step G pfx s i) i _ _ hnew rfl
    refine ⟨h1, ?_⟩
    rw [h2, hstep]
    simp only [advance, List.filter_append, hnone, List.nil_append]
    rw [List.filter_eq_self]
    intro op hop
    simp only [List.mem_map] at hop
    obtain ⟨kind, _, e⟩ := hop
    subst e
    simp
  cases he : G.targetReadError k with
  | none =>
    have hstep : step G pfx s i =
        advance s i r (.done (hitResponse r.method obj))
          [.targetRead k, .metric .hit k] := by
      subst hkey
      simp [step, hr, harrived, routerStep, hget, he, hhit]
    obtain ⟨h1, h2⟩ := hfinal _ _ hstep
    refine ⟨?_, ?_, ?_, ?_, ?_, hstay⟩
    · intro op hop key
      rw [h2] at hop
      simp at hop
      rcases hop with e | e <;> subst e <;> simp
    · rw [hstep]; rfl
    · rw [hstep]; rfl
    · intro _
      refine ⟨?_, h2⟩
      rw [h1]
      simp [hitResponse, hget]
    · intro hcon
      exact absurd rfl hcon
  | some err =>
    have hstep : step G pfx s i =
        advance s i r (.done (statusOnly 500))
          [.targetRead k, .metric (.error .InternalError) k] := by
      subst hkey
      simp [step, hr, harrived, routerStep, hget, he]
    obtain ⟨h1, h2⟩ := hfinal _ _ hstep
    refine ⟨?_, ?_, ?_, ?_, ?_, hstay⟩
    · intro op hop key
      rw [h2] at hop
      simp at hop
      rcases hop with e | e <;> subst e <;> simp
    · rw [hstep]; rfl
    · rw [hstep]; rfl
    · intro hcon
      cases hcon
    · intro _
      exact ⟨h1, h2⟩

/-- Witness for C6: after request 0 has filled the target, request 1 for the same
path is a hit. -/
theorem hit_touches_nothing_witness :
    (exec appStorage "" (startState emptyBucket) fillThenArrive).requests[1]?
      = some ⟨.GET, "/prod/app.tar.gz", .arrived⟩ ∧
    (exec appStorage "" (startState emptyBucket) fillThenArrive).target "prod/app.tar.gz"
      = some appObject ∧
    (exec appStorage "" (startState emptyBucket)
        (fillThenArrive ++ .run 1 :: [.run 1, .run 0])).requests[1]?
      = some ⟨.GET, "/prod/app.tar.gz",
          .done ⟨200, some "application/gzip", some 10, some [1, 2, 3, 4, 5, 6, 7, 8, 9, 10]⟩⟩ ∧
    (exec appStorage "" (startState emptyBucket)
        (fillThenArrive ++ .run 1 :: [.run 1, .run 0])).log.filter (fun op => op.task = 1)
      = [⟨1, .targetRead "prod/app.tar.gz"⟩, ⟨1, .metric .hit "prod/app.tar.gz"⟩] :=
  have h1 : (exec appStorage "" (startState emptyBucket) fillThenArrive).requests[1]?
      = some ⟨.GET, "/prod/app.tar.gz", .arrived⟩ := by decide
  have h2 : (exec appStorage "" (startState emptyBucket) fillThenArrive).target
      "prod/app.tar.gz" = some appObject := by decide
  have h := (hit_touches_nothing appStorage "" emptyBucket fillThenArrive [.run 1, .run 0] 1
    ⟨.GET, "/prod/app.tar.gz", .arrived⟩ "prod/app.tar.gz" appObject h1 rfl rfl (by decide)
    h2).2.2.2.1 rfl
  ⟨h1, h2, h.1, h.2⟩

/-- Counterexample to C6 as written: the target bucket holds an object at
`prod/app.tar.gz`, the target gateway fails the existence check, and the `GET`
for the path is answered a bare 500, not 200 with the stored object. -/
theorem cached_key_answered_500 :
    cachedBucket "prod/app.tar.gz" = some appObject ∧
    (exec unreachableTargetStorage "" (startState cachedBucket)
        [.arrive .GET "/prod/app.tar.gz", .run 0]).requests[0]?
      = some ⟨.GET, "/prod/app.tar.gz", .done (statusOnly 500)⟩ := by
  decide

/-- C8, as amended (spec-modelled): let `k` be absent from the source (its read
answers not-found) and from the target bucket at startup. Then in every state of
every run: each `GET` or `HEAD` for `k` that has its response has status 404 and
nothing else when the target gateway answers the existence check for `k`, and a
bare 500 when the gateway fails that check; the log holds no target write of
`k`; `k` is still absent from the target; and the run can be continued so that
every request has its response, those for `k` being as said. -/
theorem absent_404_no_write (G : Storage) (pfx : String) (k : ObjectKey)
    (target : ObjectKey → Option Object) (acts : List Action)
    (hsource : G.sourceRead k = .error .notFound)
    (htarget : target k = none) :
    (∀ (j : Nat) (r : Request) (resp : Response),
      (exec G pfx (startState target) acts).requests[j]? = some r →
      r.method ≠ .other → objectKey pfx r.path = k → r.progress = .done resp →
      (G.targetReadError k = none ∧ resp = statusOnly 404) ∨
        (G.targetReadError k ≠ none ∧ resp = statusOnly 500)) ∧
    (∀ op ∈ (exec G pfx (startState target) acts).log, op.kind ≠ .targetWrite k) ∧
    (exec G pfx (startState target) acts).target k = none ∧
    (∃ more : List Action,
      ∀ r ∈ (exec G pfx (startState target) (acts ++ more)).requests,
        ∃ resp, r.progress = .done resp ∧
          (r.method ≠ .other → objectKey pfx r.path = k →
            (G.targetReadError k = none ∧ resp = statusOnly 404) ∨
              (G.targetReadError k ≠ none ∧ resp = statusOnly 500))) := by
  have hcase : (G.sourceRead k = .error .notFound ∧
      FetchResult.failure .NotFound = .failure .NotFound) ∨
      (∃ obj, G.sourceRead k = .ok obj ∧ G.targetWriteError k ≠ none ∧
        FetchResult.failure .NotFound = .failure .StorageError) := Or.inl ⟨hsource, rfl⟩
  have hinv : ∀ acts', Unfilled G pfx k (.failure .NotFound)
      (exec G pfx (startState target) acts') := fun acts' =>
    unfilled_exec G pfx k _ hcase acts' _ (discipline_start pfx target)
      (unfilled_start G pfx k _ target htarget)
  have hd := discipline_exec G pfx acts _ (discipline_start pfx target)
  refine ⟨?_, ?_, (hinv acts).absent, ?_⟩
  · intro j r resp hj hm hkey hp
    exact (hinv acts).answered j r resp hj hm hkey hp
  · intro op hop hk
    obtain ⟨obj, hobj⟩ := (hinv acts).writes op hop hk
    rw [hsource] at hobj
    cases hobj
  · obtain ⟨more, hmore⟩ := drain G pfx _ _ hd (le_refl _)
    refine ⟨more, ?_⟩
    rw [exec_append]
    intro r hr
    obtain ⟨resp, hresp⟩ := hmore r hr
    refine ⟨resp, hresp, ?_⟩
    intro hm hkey
    obtain ⟨j, hj⟩ := List.mem_iff_getElem?.1 hr
    rw [← exec_append] at hj
    exact (hinv (acts ++ more)).answered j r resp hj hm hkey hresp

/-- Witness for C8: `/missing` is in neither bucket; the request for it ends 404
and the log has no write of it. -/
theorem absent_404_no_write_witness :
    appStorage.sourceRead "missing" = .error .notFound ∧
    emptyBucket "missing" = none ∧
    (exec appStorage "" (startState emptyBucket) missingRun).requests[0]?
      = some ⟨.GET, "/missing", .done (statusOnly 404)⟩ ∧
    (∀ op ∈ (exec appStorage "" (startState emptyBucket) missingRun).log,
      op.kind ≠ .targetWrite "missing") :=
  ⟨rfl, rfl, by decide,
   (absent_404_no_write appStorage "" "missing" emptyBucket missingRun rfl rfl).2.1⟩

/-- Counterexample to C8 as written: `missing` is absent from the source and from
the target bucket. With a target gateway that fails the existence check, the
`GET` for `/missing` is answered 500, not 404; and with a working gateway, a
request for `/missing` whose method is neither `GET` nor `HEAD` is answered 405,
not 404. -/
theorem absent_key_answered_500 :
    unreachableTargetStorage.sourceRead "missing" = .error .notFound ∧
    appStorage.sourceRead "missing" = .error .notFound ∧
    emptyBucket "missing" = none ∧
    (exec unreachableTargetStorage "" (startState emptyBucket)
        [.arrive .GET "/missing", .run 0]).requests[0]?
      = some ⟨.GET, "/missing", .done (statusOnly 500)⟩ ∧
    (exec appStorage "" (startState emptyBucket)
        [.arrive .other "/missing", .run 0]).requests[0]?
      = some ⟨.other, "/missing", .done (statusOnly 405)⟩ :=
  ⟨rfl, rfl, rfl, by decide, by decide⟩

/-- C9, as amended (spec-modelled): let the source hold `k` and every target
write of `k` fail, `k` being absent from the target bucket at startup. Then in
every state of every run: each `GET` or `HEAD` for `k` that has its response has
a status and nothing else, no header and no byte of the fetched object, the
status being 502 when the target gateway answers the existence check for `k` and
500 when the gateway fails that check; `k` is still absent from the target; the
ticket for `k` is in the table only while a request holds it; a write step of
`k` takes the ticket out of the table; the run can be continued so that every
request has its response; and when the gateway answers the existence check and
no ticket for `k` is in the table, a request for `k` that arrives next and is
run to its end makes a target read, a new source read and a new target write of
its own, is answered 502, and leaves no ticket. -/
theorem failed_write_502_no_ticket (G : Storage) (pfx : String) (k : ObjectKey)
    (obj : Object) (target : ObjectKey → Option Object) (acts : List Action)
    (hsource : G.sourceRead k = .ok obj)
    (hwrite : G.targetWriteError k ≠ none)
    (htarget : target k = none) :
    (∀ (j : Nat) (r : Request) (resp : Response),
      (exec G pfx (startState target) acts).requests[j]? = some r →
      r.method ≠ .other → objectKey pfx r.path = k → r.progress = .done resp →
      (G.targetReadError k = none ∧ resp = statusOnly 502) ∨
        (G.targetReadError k ≠ none ∧ resp = statusOnly 500)) ∧
    (exec G pfx (startState target) acts).target k = none ∧
    (k ∈ (exec G pfx (startState target) acts).tickets →
      ∃ (j : Nat) (r : Request),
        (exec G pfx (startState target) acts).requests[j]? = some r ∧ r.fetches k = true) ∧
    (∀ (i : Nat) (r : Request) (o : Object),
      (exec G pfx (startState target) acts).requests[i]? = some r →
      r.progress = .writing k o →
      k ∉ (step G pfx (exec G pfx (startState target) acts) i).tickets) ∧
    (∃ more : List Action,
      ∀ r ∈ (exec G pfx (startState target) (acts ++ more)).requests,
        ∃ resp, r.progress = .done resp ∧
          (r.method ≠ .other → objectKey pfx r.path = k →
            (G.targetReadError k = none ∧ resp = statusOnly 502) ∨
              (G.targetReadError k ≠ none ∧ resp = statusOnly 500))) ∧
    (G.targetReadError k = none → k ∉ (exec G pfx (startState target) acts).tickets →
      ∀ (m : Method) (path : String), m ≠ .other → objectKey pfx path = k →
        (exec G pfx (startState target)
          (acts ++ [.arrive m path] ++
            List.replicate 4 (.run (exec G pfx (startState target) acts).requests.length))).log
          = (exec G pfx (startState target) acts).log ++
            [⟨(exec G pfx (startState target) acts).requests.length, .targetRead k⟩,
             ⟨(exec G pfx (startState target) acts).requests.length, .sourceRead k⟩,
             ⟨(exec G pfx (startState target) acts).requests.length, .targetWrite k⟩,
             ⟨(exec G pfx (startState target) acts).requests.length,
               .metric (.error .StorageError) k⟩] ∧
        (exec G pfx (startState target)
          (acts ++ [.arrive m path] ++
            List.replicate 4 (.run (exec G pfx (startState target) acts).requests.length))
          ).requests[(exec G pfx (startState target) acts).requests.length]?
          = some ⟨m, path, .done (statusOnly 502)⟩ ∧
        k ∉ (exec G pfx (startState target)
          (acts ++ [.arrive m path] ++
            List.replicate 4 (.run (exec G pfx (startState target) acts).requests.length))
          ).tickets) := by
  have hcase : (G.sourceRead k = .error .notFound ∧
      FetchResult.failure .StorageError = .failure .NotFound) ∨
      (∃ obj, G.sourceRead k = .ok obj ∧ G.targetWriteError k ≠ none ∧
        FetchResult.failure .StorageError = .failure .StorageError) :=
    Or.inr ⟨obj, hsource, hwrite, rfl⟩
  have hinv : ∀ acts', Unfilled G pfx k (.failure .StorageError)
      (exec G pfx (startState target) acts') := fun acts' =>
    unfilled_exec G pfx k _ hcase acts' _ (discipline_start pfx target)
      (unfilled_start G pfx k _ target htarget)
  have hd := discipline_exec G pfx acts _ (discipline_start pfx target)
  refine ⟨?_, (hinv acts).absent, ?_, ?_, ?_, ?_⟩
  · intro j r resp hj hm hkey hp
    exact (hinv acts).answered j r resp hj hm hkey hp
  · intro hin
    exact ticket_has_holder pfx _ hd k hin
  · intro i r o hi hp
    have hstep : step G pfx (exec G pfx (startState target) acts) i
        = complete (exec G pfx (startState target) acts) i r k (.failure .StorageError)
            [.targetWrite k] := by
      cases hw : G.targetWriteError k with
      | none => exact absurd hw hwrite
      | some e => simp [step, hi, hp, resolveStep, hw]
    rw [hstep]
    simp [complete]
  · obtain ⟨more, hmore⟩ := drain G pfx _ _ hd (le_refl _)
    refine ⟨more, ?_⟩
    rw [exec_append]
    intro r hr
    obtain ⟨resp, hresp⟩ := hmore r hr
    refine ⟨resp, hresp, ?_⟩
    intro hm hkey
    obtain ⟨j, hj⟩ := List.mem_iff_getElem?.1 hr
    rw [← exec_append] at hj
    exact (hinv (acts ++ more)).answered j r resp hj hm hkey hresp
  · intro hreach hk m path hm hkey
    have habsent := (hinv acts).absent
    rw [exec_append, exec_append]
    generalize exec G pfx (startState target) acts = s at hk habsent ⊢
    exact fresh_failed_resolution G pfx k obj s m path hsource hwrite hreach habsent hk hm hkey

/-- Witness for C9: with a target that refuses every write, a request for
`/prod/app.tar.gz` run to its end is answered 502, and the next one reads the
source again. -/
theorem failed_write_502_no_ticket_witness :
    brokenTargetStorage.sourceRead "prod/app.tar.gz" = .ok appObject ∧
    brokenTargetStorage.targetWriteError "prod/app.tar.gz" ≠ none ∧
    (exec brokenTargetStorage "" (startState emptyBucket) singleRun).requests[0]?
      = some ⟨.GET, "/prod/app.tar.gz", .done (statusOnly 502)⟩ ∧
    sourceReads "prod/app.tar.gz"
      (exec brokenTargetStorage "" (startState emptyBucket)
        (singleRun ++ [.arrive .GET "/prod/app.tar.gz"] ++
          List.replicate 4 (.run 1))).log
      = [⟨0, .sourceRead "prod/app.tar.gz"⟩, ⟨1, .sourceRead "prod/app.tar.gz"⟩] ∧
    (∀ (j : Nat) (r : Request) (resp : Response),
      (exec brokenTargetStorage "" (startState emptyBucket) singleRun).requests[j]? = some r →
      r.method ≠ .other → objectKey "" r.path = "prod/app.tar.gz" → r.progress = .done resp →
      (brokenTargetStorage.targetReadError "prod/app.tar.gz" = none ∧ resp = statusOnly 502) ∨
        (brokenTargetStorage.targetReadError "prod/app.tar.gz" ≠ none ∧
          resp = statusOnly 500)) :=
  ⟨rfl, by decide, by decide, by decide,
   (failed_write_502_no_ticket brokenTargetStorage "" "prod/app.tar.gz" appObject emptyBucket
      singleRun rfl (by decide) rfl).1⟩

/-- Counterexample to C9 as written: the source holds `prod/app.tar.gz` and the
target write of it fails. With a target gateway that fails the existence check
as well, the `GET` for the path is answered 500, not 502, with no source read
made; with the object already in the target bucket, the `GET` is answered 200
with the stored object; and a request for the path whose method is neither
`GET` nor `HEAD` is answered 405. -/
theorem failing_target_answered_500 :
    deadTargetStorage.sourceRead "prod/app.tar.gz" = .ok appObject ∧
    deadTargetStorage.targetWriteError "prod/app.tar.gz" ≠ none ∧
    emptyBucket "prod/app.tar.gz" = none ∧
    (exec deadTargetStorage "" (startState emptyBucket)
        [.arrive .GET "/prod/app.tar.gz", .run 0]).requests[0]?
      = some ⟨.GET, "/prod/app.tar.gz", .done (statusOnly 500)⟩ ∧
    sourceReads "prod/app.tar.gz"
      (exec deadTargetStorage "" (startState emptyBucket)
        [.arrive .GET "/prod/app.tar.gz", .run 0]).log = [] ∧
    brokenTargetStorage.sourceRead "prod/app.tar.gz" = .ok appObject ∧
    brokenTargetStorage.targetWriteError "prod/app.tar.gz" ≠ none ∧
    (exec brokenTargetStorage "" (startState cachedBucket)
        [.arrive .GET "/prod/app.tar.gz", .run 0]).requests[0]?
      = some ⟨.GET, "/prod/app.tar.gz",
          .done ⟨200, some "application/gzip", some 10, some [1, 2, 3, 4, 5, 6, 7, 8, 9, 10]⟩⟩ ∧
    (exec brokenTargetStorage "" (startState emptyBucket)
        [.arrive .other "/prod/app.tar.gz", .run 0]).requests[0]?
      = some ⟨.other, "/prod/app.tar.gz", .done (statusOnly 405)⟩ :=
  ⟨rfl, by decide, rfl, by decide, by decide, rfl, by decide, by decide, by decide⟩

end S3CopyProxy
